import Mathlib

/-!
Verification of the RidePulse data-synchronization pipeline (Efteling
connector, scheduler, snapshot writer) against its natural-language
specification.

The Python source is shallowly embedded:

* JSON scalar values carried by the vendor payload are modelled by `JVal`;
  Python coercions (`or` defaulting, `int(...)`, `.lower()`, truthiness)
  are modelled by explicit total/fallible functions.
* `datetime` values are modelled as `Int` seconds of naive park-local
  civil time (the connector compares and adds only within one timezone);
  `civilToSec` linearizes a civil date via the standard days-from-civil
  algorithm, so concrete timestamps in theorems are written as real dates.
* Code that can raise an uncaught Python exception is embedded in
  `Except PyErr`; code whose exceptions are caught locally is total.
* Fields of the vendor payload that the connector only passes through
  untouched (and that no claim exercises) are given their expected types
  directly; fields whose malformation the code handles (or mishandles)
  keep the loose `JVal` type.
-/

/-- Uncaught Python exception kinds relevant to the embedded code. -/
inductive PyErr
  | keyError
  | attributeError
  | typeError
  | valueError
deriving DecidableEq, Repr

/-- JSON scalar values as delivered by the vendor API. -/
inductive JVal
  | jnull
  | jbool (b : Bool)
  | jint (n : Int)
  | jstr (s : String)
deriving DecidableEq, Repr

/-- Python truthiness of a JSON scalar. -/
def JVal.truthy : JVal → Bool
  | .jnull => false
  | .jbool b => b
  | .jint n => n != 0
  | .jstr s => !s.data.isEmpty

/-- Python `x or dflt` applied to an optional field value (`dict.get`
returning `None` for an absent key). -/
def pyOr (v : Option JVal) (dflt : JVal) : JVal :=
  match v with
  | some x => if x.truthy then x else dflt
  | none => dflt

/-- Python whitespace characters removed by `str.strip()`. -/
def isPyWs (c : Char) : Bool :=
  c == ' ' || c == '\t' || c == '\n' || c == '\r' || c == Char.ofNat 11 || c == Char.ofNat 12

/-- Python `str.strip()`. -/
def pyTrim (s : String) : String :=
  ⟨((s.data.dropWhile isPyWs).reverse.dropWhile isPyWs).reverse⟩

/-- Python `str.lower()` (ASCII case folding, which covers the vendor
vocabulary). -/
def pyLower (s : String) : String :=
  ⟨s.data.map Char.toLower⟩

/-- Does `pat` occur as an initial segment of `s`? -/
def charsStart (pat s : List Char) : Bool :=
  match pat, s with
  | [], _ => true
  | _ :: _, [] => false
  | p :: ps, c :: cs => p == c && charsStart ps cs

/-- Does `pat` occur as a contiguous segment of `s`? -/
def charsContain (pat : List Char) : List Char → Bool
  | [] => pat.isEmpty
  | c :: cs => charsStart pat (c :: cs) || charsContain pat cs

/-- Python `pat in s` substring test. -/
def pyContains (s pat : String) : Bool := charsContain pat.data s.data

/-- Python `s.endswith(post)`. -/
def pyEndsWith (s post : String) : Bool :=
  charsStart post.data.reverse s.data.reverse

/-- Fuel-driven worker for `pyReplace`; the fuel is always ample. -/
def pyRepAux (pat rep : List Char) : Nat → List Char → List Char
  | 0, s => s
  | _ + 1, [] => []
  | fuel + 1, c :: cs =>
    if !pat.isEmpty && charsStart pat (c :: cs) then
      rep ++ pyRepAux pat rep fuel (cs.drop (pat.length - 1))
    else
      c :: pyRepAux pat rep fuel cs

/-- Python `s.replace(pat, rep)`: every non-overlapping occurrence,
scanned left to right. -/
def pyReplace (s pat rep : String) : String :=
  ⟨pyRepAux pat.data rep.data (s.data.length + 1) s.data⟩

/-- Decimal digit value of a character, if it is a digit. -/
def digitVal? (c : Char) : Option Nat :=
  if c.isDigit then some (c.toNat - 48) else none

/-- Numeric value of a nonempty all-digit character list. -/
def natOfDigits (l : List Char) : Option Nat :=
  l.foldl
    (fun acc c =>
      match acc, digitVal? c with
      | some a, some d => some (a * 10 + d)
      | _, _ => none)
    (if l.isEmpty then none else some 0)

/-- Python `int(s)` on a string: strip whitespace, optional sign, digits. -/
def pyParseInt (s : String) : Option Int :=
  match (pyTrim s).data with
  | '+' :: rest => (natOfDigits rest).map Int.ofNat
  | '-' :: rest => (natOfDigits rest).map (fun n => -(n : Int))
  | l => (natOfDigits l).map Int.ofNat

/-- Python `int(v)` on a JSON scalar; `none` models the raised
`ValueError`/`TypeError`. -/
def pyInt : JVal → Option Int
  | .jint n => some n
  | .jbool b => some (if b then 1 else 0)
  | .jstr s => pyParseInt s
  | .jnull => none

/-- Python `str(v)` on a JSON scalar. -/
def pyStr : JVal → String
  | .jstr s => s
  | .jint n => toString n
  | .jbool b => if b then "True" else "False"
  | .jnull => "None"

/-- Attribute access `.lower()` on a value that must be a string;
non-strings raise `AttributeError`. -/
def asStr : JVal → Except PyErr String
  | .jstr s => .ok s
  | _ => .error .attributeError

/-- The string inside a `JVal`, defaulting to `""`. Used only at spots
the surrounding code has already proved to be strings. -/
def jstrD : JVal → String
  | .jstr s => s
  | _ => ""

/-!  Civil time.  Naive park-local timestamps are `Int` seconds since the
epoch, linearized with the standard days-from-civil algorithm. -/

/-- Gregorian leap-year test (for positive years). -/
def isLeapYear (y : Nat) : Bool :=
  (y % 4 == 0 && y % 100 != 0) || y % 400 == 0

/-- Length of a month of the Gregorian calendar. -/
def daysInMonth (y m : Nat) : Nat :=
  if m == 2 then (if isLeapYear y then 29 else 28)
  else if m == 4 || m == 6 || m == 9 || m == 11 then 30
  else 31

/-- Days from 1970-01-01 to the given civil date (days-from-civil). -/
def daysFromCivil (y m d : Int) : Int :=
  let y2 := if m ≤ 2 then y - 1 else y
  let era := (if 0 ≤ y2 then y2 else y2 - 399) / 400
  let yoe := y2 - era * 400
  let mp := (m + 9) % 12
  let doy := (153 * mp + 2) / 5 + d - 1
  let doe := yoe * 365 + yoe / 4 - yoe / 100 + doy
  era * 146097 + doe - 719468

/-- Naive civil date-time to seconds since the epoch. -/
def civilToSec (y mo d h mi s : Int) : Int :=
  daysFromCivil y mo d * 86400 + h * 3600 + mi * 60 + s

/-- `datetime.replace(second=0, microsecond=0)`: truncate a timestamp to
the start of its minute. -/
def truncToMinute (t : Int) : Int := t - t.emod 60

/-- Parser for the `YYYY-MM-DDTHH:MM:SS` civil timestamps carried by the
Efteling feed (the subset of ISO-8601 the claims exercise); any other
shape fails, as `datetime.fromisoformat` fails on malformed input. -/
def parseIsoChars (l : List Char) : Option Int :=
  match l with
  | [y1, y2, y3, y4, c1, m1, m2, c2, d1, d2, sep, h1, h2, c3, i1, i2, c4, s1, s2] =>
    match natOfDigits [y1, y2, y3, y4], natOfDigits [m1, m2], natOfDigits [d1, d2],
        natOfDigits [h1, h2], natOfDigits [i1, i2], natOfDigits [s1, s2] with
    | some y, some mo, some d, some h, some mi, some s =>
      if c1 == '-' && c2 == '-' && (sep == 'T' || sep == ' ') && c3 == ':' && c4 == ':'
          && 1 ≤ mo && mo ≤ 12 && 1 ≤ d && d ≤ daysInMonth y mo
          && h ≤ 23 && mi ≤ 59 && s ≤ 59 then
        some (civilToSec (y : Int) (mo : Int) (d : Int) (h : Int) (mi : Int) (s : Int))
      else none
    | _, _, _, _, _, _ => none
  | _ => none

/-!  Unified schema (`app/models/schemas.py`), restricted to the fields
the connector actually sets.  The enum member written `open` in the
source is written `open'` here because `open` is a Lean keyword. -/

/-- Unified attraction status taxonomy. -/
inductive AttractionStatus
  | open'
  | open_soon
  | maintenance
  | breakdown
  | closed
deriving DecidableEq, Repr

/-- String value of an `AttractionStatus` member (its `.value`). -/
def AttractionStatus.value : AttractionStatus → String
  | .open' => "open"
  | .open_soon => "open_soon"
  | .maintenance => "maintenance"
  | .breakdown => "breakdown"
  | .closed => "closed"

/-- Secondary single-rider queue merged into its parent attraction. -/
structure SingleRiderInfo where
  available : Bool
  status : Option String
  wait_time : Option Int
deriving DecidableEq, Repr

/-- Virtual-queue state taxonomy. -/
inductive VirtualQueueState
  | available
  | temporarily_full
  | full
  | closed
deriving DecidableEq, Repr

/-- Virtual-queue sub-state of an attraction. -/
structure VirtualQueueInfo where
  available : Bool
  state : Option VirtualQueueState
  return_start : Option Int
  return_end : Option Int
deriving DecidableEq, Repr

/-- Live attraction entity of the unified schema. -/
structure AttractionLive where
  id : String
  name : String
  status : AttractionStatus
  wait_time : Option Int
  single_rider : Option SingleRiderInfo
  virtual_queue : Option VirtualQueueInfo
deriving DecidableEq, Repr

/-- One scheduled show interval. -/
structure ShowTime where
  start_date_time : Int
  end_date_time : Int
  edition : Option String
deriving DecidableEq, Repr

/-- Show entity of the unified schema. -/
structure Show where
  id : String
  name : String
  status : String
  show_times : List ShowTime
deriving DecidableEq, Repr

/-- Venue (restaurant/shop) status. -/
inductive VenueStatus
  | open'
  | closed
deriving DecidableEq, Repr

/-- Restaurant entity of the unified schema. -/
structure Restaurant where
  id : String
  name : String
  status : VenueStatus
  opening_time : Option Int
  closing_time : Option Int
deriving DecidableEq, Repr

/-- Shop entity of the unified schema. -/
structure Shop where
  id : String
  name : String
  status : VenueStatus
  opening_time : Option Int
  closing_time : Option Int
deriving DecidableEq, Repr

/-!  State normalizer (`app/parks/efteling.py`, `_map_state`). -/

/-- The fixed lookup table of `_map_state` (the `mapping` dict). -/
def statusTable : List (String × AttractionStatus) :=
  [("open", .open'),
   ("nognietopen", .open_soon),
   ("storing", .breakdown),
   ("tijdelijkbuitenbedrijf", .breakdown),
   ("inonderhoud", .maintenance),
   ("buitenbedrijf", .closed),
   ("gesloten", .closed),
   ("wachtrijgesloten", .closed),
   ("", .closed)]

/-- Map a raw Efteling state string (possibly `None`) onto the unified
status: lower-case, strip, look up; unknown keys log a warning and
default to `closed`. -/
def _map_state (raw : Option String) : AttractionStatus :=
  match statusTable.lookup (pyTrim (pyLower (raw.getD ""))) with
  | some st => st
  | none => .closed

theorem map_state_eq_lookup (raw : Option String) :
    _map_state raw =
      (statusTable.lookup (pyTrim (pyLower (raw.getD "")))).getD .closed := by
  rcases h : statusTable.lookup (pyTrim (pyLower (raw.getD ""))) with _ | st <;>
    simp [_map_state, h]

theorem statusTable_lookup_eq_none (k : String)
    (h1 : k ≠ "open") (h2 : k ≠ "nognietopen") (h3 : k ≠ "storing")
    (h4 : k ≠ "tijdelijkbuitenbedrijf") (h5 : k ≠ "inonderhoud")
    (h6 : k ≠ "buitenbedrijf") (h7 : k ≠ "gesloten")
    (h8 : k ≠ "wachtrijgesloten") (h9 : k ≠ "") :
    statusTable.lookup k = none := by
  have b1 : (k == "open") = false := beq_eq_false_iff_ne.mpr h1
  have b2 : (k == "nognietopen") = false := beq_eq_false_iff_ne.mpr h2
  have b3 : (k == "storing") = false := beq_eq_false_iff_ne.mpr h3
  have b4 : (k == "tijdelijkbuitenbedrijf") = false := beq_eq_false_iff_ne.mpr h4
  have b5 : (k == "inonderhoud") = false := beq_eq_false_iff_ne.mpr h5
  have b6 : (k == "buitenbedrijf") = false := beq_eq_false_iff_ne.mpr h6
  have b7 : (k == "gesloten") = false := beq_eq_false_iff_ne.mpr h7
  have b8 : (k == "wachtrijgesloten") = false := beq_eq_false_iff_ne.mpr h8
  have b9 : (k == "") = false := beq_eq_false_iff_ne.mpr h9
  simp [statusTable, List.lookup, b1, b2, b3, b4, b5, b6, b7, b8, b9]

/-- C1: every raw status string whose case-folded, whitespace-trimmed
form is in the known Efteling vocabulary maps to the documented unified
status; every other string, the empty string included, and a `None`
input map to `closed`, and the function is total. -/
theorem c1_map_state_spec :
    (∀ raw : String, pyTrim (pyLower raw) = "open" →
      _map_state (some raw) = .open') ∧
    (∀ raw : String, pyTrim (pyLower raw) = "nognietopen" →
      _map_state (some raw) = .open_soon) ∧
    (∀ raw : String, pyTrim (pyLower raw) = "storing" →
      _map_state (some raw) = .breakdown) ∧
    (∀ raw : String, pyTrim (pyLower raw) = "tijdelijkbuitenbedrijf" →
      _map_state (some raw) = .breakdown) ∧
    (∀ raw : String, pyTrim (pyLower raw) = "inonderhoud" →
      _map_state (some raw) = .maintenance) ∧
    (∀ raw : String, pyTrim (pyLower raw) = "buitenbedrijf" →
      _map_state (some raw) = .closed) ∧
    (∀ raw : String, pyTrim (pyLower raw) = "gesloten" →
      _map_state (some raw) = .closed) ∧
    (∀ raw : String, pyTrim (pyLower raw) = "wachtrijgesloten" →
      _map_state (some raw) = .closed) ∧
    _map_state none = .closed ∧
    _map_state (some "") = .closed ∧
    (∀ raw : String,
      pyTrim (pyLower raw) ∉
        ["open", "nognietopen", "storing", "tijdelijkbuitenbedrijf",
         "inonderhoud", "buitenbedrijf", "gesloten", "wachtrijgesloten"] →
      _map_state (some raw) = .closed) := by
  refine ⟨?_, ?_, ?_, ?_, ?_, ?_, ?_, ?_, by decide, by decide, ?_⟩
  case _ => intro raw h; rw [map_state_eq_lookup]; simp only [Option.getD_some]; rw [h]; decide
  case _ => intro raw h; rw [map_state_eq_lookup]; simp only [Option.getD_some]; rw [h]; decide
  case _ => intro raw h; rw [map_state_eq_lookup]; simp only [Option.getD_some]; rw [h]; decide
  case _ => intro raw h; rw [map_state_eq_lookup]; simp only [Option.getD_some]; rw [h]; decide
  case _ => intro raw h; rw [map_state_eq_lookup]; simp only [Option.getD_some]; rw [h]; decide
  case _ => intro raw h; rw [map_state_eq_lookup]; simp only [Option.getD_some]; rw [h]; decide
  case _ => intro raw h; rw [map_state_eq_lookup]; simp only [Option.getD_some]; rw [h]; decide
  case _ => intro raw h; rw [map_state_eq_lookup]; simp only [Option.getD_some]; rw [h]; decide
  case _ =>
    intro raw h
    simp only [List.mem_cons, List.not_mem_nil, or_false, not_or] at h
    obtain ⟨h1, h2, h3, h4, h5, h6, h7, h8⟩ := h
    rw [map_state_eq_lookup]
    simp only [Option.getD_some]
    by_cases h0 : pyTrim (pyLower raw) = ""
    · rw [h0]; decide
    · rw [statusTable_lookup_eq_none _ h1 h2 h3 h4 h5 h6 h7 h8 h0]
      rfl

/-- Witness for C1 at concrete inputs: a vocabulary string needing both
case folding and trimming, and an out-of-vocabulary string. -/
theorem c1_map_state_spec_witness :
    _map_state (some " Storing ") = .breakdown ∧
    _map_state (some "unknowntag") = .closed :=
  ⟨c1_map_state_spec.2.2.1 " Storing " (by decide),
   c1_map_state_spec.2.2.2.2.2.2.2.2.2.2 "unknowntag" (by decide)⟩

/-!  Raw WIS payload (the parsed JSON of `https://api.efteling.com/app/wis/`).
Fields are `Option`-valued: `none` covers both an absent key and an
explicit `null` (indistinguishable through `dict.get`).  The `Id` field
keeps the loose `JVal` type because the code indexes it with `e["Id"]`
and calls `.lower()` on it, both of which can raise. -/

/-- Raw `VirtualQueue` sub-object. -/
structure RawVQ where
  state : Option String := none
  waitingTime : Option JVal := none
deriving DecidableEq, Repr

/-- Raw entry of `ShowTimes` / `PastShowTimes`. -/
structure RawShowTime where
  startDateTime : Option JVal := none
  endDateTime : Option JVal := none
  edition : Option String := none
deriving DecidableEq, Repr

/-- Raw entry of `OpeningTimes`. -/
structure RawHours where
  hourFrom : Option JVal := none
  hourTo : Option JVal := none
deriving DecidableEq, Repr

/-- Raw `AttractionInfo` entry. -/
structure RawEntry where
  idF : Option JVal := none
  nameF : Option String := none
  typeF : Option String := none
  stateF : Option String := none
  waitingTimeF : Option JVal := none
  showTimes : Option (List RawShowTime) := none
  pastShowTimes : Option (List RawShowTime) := none
  openingTimes : Option (List RawHours) := none
  virtualQueue : Option RawVQ := none
deriving DecidableEq, Repr

/-- Parsed WIS response; `attractionInfo` is `data.get("AttractionInfo", [])`. -/
structure WisPayload where
  attractionInfo : List RawEntry := []
deriving DecidableEq, Repr

/-- Efteling return-time window duration, minutes (`VQ_WINDOW_MINUTES`). -/
def VQ_WINDOW_MINUTES : Int := 15

/-- Virtual-queue normalization: the `VirtualQueue` branch of
`fetch_wait_times` (state string lower-cased, `walkin`/`enabled`/`full`
recognized, anything else closed; `enabled` computes the return window
from the minute-truncated park-local now plus the raw wait minutes). -/
def normalizeVQ (vqRaw : Option RawVQ) (nowPark : Int) : Option VirtualQueueInfo :=
  match vqRaw with
  | none => none
  | some vq =>
    let vqState := pyLower (vq.state.getD "")
    if vqState = "walkin" then
      some { available := true, state := some .temporarily_full,
             return_start := none, return_end := none }
    else if vqState = "enabled" then
      let waitMin := (pyInt (pyOr vq.waitingTime (.jint 0))).getD 0
      let rs := truncToMinute nowPark + 60 * waitMin
      some { available := true, state := some .available,
             return_start := some rs, return_end := some (rs + 60 * VQ_WINDOW_MINUTES) }
    else if vqState = "full" then
      some { available := true, state := some .full,
             return_start := none, return_end := none }
    else
      some { available := true, state := some .closed,
             return_start := none, return_end := none }

/-- Insert into a Python dict modelled as an insertion-ordered
association list: an existing key keeps its position and takes the new
value, a new key goes to the back. -/
def dictInsert (k : JVal) (e : RawEntry) (d : List (JVal × RawEntry)) :
    List (JVal × RawEntry) :=
  if d.any (fun p => p.1 == k) then
    d.map (fun p => if p.1 == k then (k, e) else p)
  else d ++ [(k, e)]

/-- Worker for `dictOfEntries`. -/
def dictOfEntriesAux (acc : List (JVal × RawEntry)) :
    List RawEntry → Except PyErr (List (JVal × RawEntry))
  | [] => .ok acc
  | e :: rest =>
    match e.idF with
    | none => .error .keyError
    | some k => dictOfEntriesAux (dictInsert k e acc) rest

/-- The dict comprehension building `all_entries`: keyed by `e["Id"]`,
raising `KeyError` on an entry with no `Id`. -/
def dictOfEntries (l : List RawEntry) : Except PyErr (List (JVal × RawEntry)) :=
  dictOfEntriesAux [] l

/-- Secondary-queue naming convention on an already lower-cased
identifier: contains `singlerider` or ends with `sr`. -/
def srLike (lower : String) : Bool :=
  pyContains lower "singlerider" || pyEndsWith lower "sr"

/-- Marker removal producing the candidate parent identifier: strip every
occurrence of `singlerider`, then of `sr`. -/
def srStrip (lower : String) : String :=
  pyReplace (pyReplace lower "singlerider" "") "sr" ""

/-- The generator `next((k for k in all_entries if k.lower() == parent_id),
None)`: scan the keys in order, lower-casing each (raising on a
non-string key), stopping at the first match. -/
def findParent (keys : List JVal) (parentId : String) : Except PyErr (Option JVal) :=
  match keys with
  | [] => .ok none
  | k :: rest => do
    let s ← asStr k
    if pyLower s = parentId then .ok (some k) else findParent rest parentId

/-- Worker for `buildSrMap`; `keys` is the full key list scanned for
parents, the last argument the keys still to classify. -/
def buildSrMapAux (keys : List JVal) (acc : List (JVal × JVal)) :
    List JVal → Except PyErr (List (JVal × JVal))
  | [] => .ok acc
  | k :: rest => do
    let s ← asStr k
    let lower := pyLower s
    if srLike lower then
      match ← findParent keys (srStrip lower) with
      | some m => buildSrMapAux keys (acc ++ [(k, m)]) rest
      | none => buildSrMapAux keys acc rest
    else buildSrMapAux keys acc rest

/-- The `single_rider_map` loop: map each secondary-queue key to the
first existing key matching its marker-stripped remainder; keys with no
match are left out. -/
def buildSrMap (keys : List JVal) : Except PyErr (List (JVal × JVal)) :=
  buildSrMapAux keys [] keys

/-- Entity-type discriminator for attractions. -/
def typeIsAttraction (t : Option String) : Bool :=
  t == some "Attraction" || t == some "Attracties"

/-- The hard-coded alias table (`special_merge`):
`droomvluchtstandby` resolves to `droomvlucht`. -/
def special_merge (k : JVal) : JVal :=
  if k == .jstr "droomvluchtstandby" then .jstr "droomvlucht" else k

/-- The guarded conversion `int(entry.get("WaitingTime") or 0)` with
`ValueError`/`TypeError` caught into `None`. -/
def waitTimeOf (v : Option JVal) : Option Int := pyInt (pyOr v (.jint 0))

/-- Body of the main `fetch_wait_times` loop for one `(key, entry)` pair
of `all_entries`: type filter, single-rider skip, alias resolution,
status/wait normalization, single-rider attachment, virtual queue. -/
def processEntry (allE : List (JVal × RawEntry)) (srMap : List (JVal × JVal))
    (nowPark : Int) (kv : JVal × RawEntry) : Option AttractionLive :=
  if !typeIsAttraction kv.2.typeF then none
  else if (srMap.map Prod.fst).contains kv.1 then none
  else
    let status := _map_state kv.2.stateF
    let singleRider :=
      match srMap.find? (fun p => p.2 == kv.1) with
      | some (srId, _) =>
        if srId.truthy then
          match allE.lookup srId with
          | some sr =>
            let srStatus := _map_state sr.stateF
            some { available := true,
                   status := some (if srStatus = .open' then "open" else "closed"),
                   wait_time := if srStatus = .open' then waitTimeOf sr.waitingTimeF else none }
          | none => none
        else none
      | none => none
    some { id := jstrD (special_merge kv.1),
           name := kv.2.nameF.getD "Unknown",
           status := status,
           wait_time := if status = .open' then waitTimeOf kv.2.waitingTimeF else none,
           single_rider := singleRider,
           virtual_queue := normalizeVQ kv.2.virtualQueue nowPark }

/-- `fetch_wait_times` after a successful WIS fetch: build `all_entries`,
the single-rider map, then the filtered, normalized attraction list. -/
def waitTimesCore (data : WisPayload) (nowPark : Int) :
    Except PyErr (List AttractionLive) := do
  let allE ← dictOfEntries data.attractionInfo
  let srMap ← buildSrMap (allE.map Prod.fst)
  .ok (allE.filterMap (processEntry allE srMap nowPark))

/-- `fetch_wait_times`: a failed `_fetch_wis` is caught and yields `[]`;
afterwards exceptions escape unhandled. -/
def fetch_wait_times (fetched : Except PyErr WisPayload) (nowPark : Int) :
    Except PyErr (List AttractionLive) :=
  match fetched with
  | .error _ => .ok []
  | .ok data => waitTimesCore data nowPark

/-- `_parse_dt`: falsy input is `None`; otherwise parse `str(value)` as
an ISO timestamp, any failure caught into `None`. -/
def _parse_dt (v : Option JVal) : Option Int :=
  match v with
  | none => none
  | some x => if !x.truthy then none else parseIsoChars (pyStr x).data

/-- Python `x or dflt` on an optional string field. -/
def pyOrStr (v : Option String) (dflt : String) : String :=
  match v with
  | some s => if s.data.isEmpty then dflt else s
  | none => dflt

/-- Stable insertion of a show time into a list sorted by start time. -/
def insShowTime (x : ShowTime) : List ShowTime → List ShowTime
  | [] => [x]
  | y :: ys =>
    if x.start_date_time < y.start_date_time then x :: y :: ys
    else y :: insShowTime x ys

/-- `show_times.sort(key=lambda x: x.start_date_time)`: stable ascending
sort by start time. -/
def sortShowTimes (l : List ShowTime) : List ShowTime :=
  l.foldl (fun acc x => insShowTime x acc) []

/-- `entry.get("Id", "").lower()`: absent key gives `""`, a present
non-string raises `AttributeError`. -/
def idLower (idF : Option JVal) : Except PyErr String :=
  match idF with
  | none => .ok ""
  | some (.jstr s) => .ok (pyLower s)
  | some _ => .error .attributeError

/-- One entry of the `fetch_shows` loop: skip non-shows, pair up the
parseable show times, sort them, and derive the status from whether some
start time is still ahead of park-local now. -/
def showOfEntry (nowPark : Int) (e : RawEntry) : Except PyErr (Option Show) :=
  if e.typeF != some "Shows en Entertainment" then .ok none
  else do
    let rawTimes := e.showTimes.getD [] ++ e.pastShowTimes.getD []
    let sts := rawTimes.filterMap (fun t =>
      match _parse_dt t.startDateTime, _parse_dt t.endDateTime with
      | some s, some e2 =>
        some { start_date_time := s, end_date_time := e2,
               edition := some (pyOrStr t.edition "Showtime") }
      | _, _ => none)
    let sorted := sortShowTimes sts
    let ids ← idLower e.idF
    .ok (some { id := ids,
                name := e.nameF.getD "Unknown",
                status :=
                  if sorted.any (fun st => decide (nowPark ≤ st.start_date_time))
                  then "open" else "closed",
                show_times := sorted })

/-- The `fetch_shows` loop over all raw entries, in order, propagating
any raised exception. -/
def showsList (nowPark : Int) : List RawEntry → Except PyErr (List Show)
  | [] => .ok []
  | e :: rest => do
    let s? ← showOfEntry nowPark e
    let rest' ← showsList nowPark rest
    .ok (match s? with | some s => s :: rest' | none => rest')

/-- `fetch_shows`: a failed `_fetch_wis` is caught and yields `[]`. -/
def fetch_shows (fetched : Except PyErr WisPayload) (nowPark : Int) :
    Except PyErr (List Show) :=
  match fetched with
  | .error _ => .ok []
  | .ok data => showsList nowPark data.attractionInfo

/-- One entry of the `fetch_restaurants` loop: skip non-`Horeca`; a
nonempty `OpeningTimes` means open with the first interval's bounds. -/
def restaurantOfEntry (e : RawEntry) : Except PyErr (Option Restaurant) :=
  if e.typeF != some "Horeca" then .ok none
  else do
    let ids ← idLower e.idF
    match e.openingTimes.getD [] with
    | [] =>
      .ok (some { id := ids, name := e.nameF.getD "Unknown", status := .closed,
                  opening_time := none, closing_time := none })
    | h :: _ =>
      .ok (some { id := ids, name := e.nameF.getD "Unknown", status := .open',
                  opening_time := _parse_dt h.hourFrom,
                  closing_time := _parse_dt h.hourTo })

/-- The `fetch_restaurants` loop over all raw entries, in order. -/
def restaurantsList : List RawEntry → Except PyErr (List Restaurant)
  | [] => .ok []
  | e :: rest => do
    let r? ← restaurantOfEntry e
    let rest' ← restaurantsList rest
    .ok (match r? with | some r => r :: rest' | none => rest')

/-- `fetch_restaurants`: a failed `_fetch_wis` is caught and yields `[]`. -/
def fetch_restaurants (fetched : Except PyErr WisPayload) :
    Except PyErr (List Restaurant) :=
  match fetched with
  | .error _ => .ok []
  | .ok data => restaurantsList data.attractionInfo

/-- One entry of the `fetch_shops` loop: skip non-`Souvenirwinkel`; a
nonempty `OpeningTimes` means open with the first interval's bounds. -/
def shopOfEntry (e : RawEntry) : Except PyErr (Option Shop) :=
  if e.typeF != some "Souvenirwinkel" then .ok none
  else do
    let ids ← idLower e.idF
    match e.openingTimes.getD [] with
    | [] =>
      .ok (some { id := ids, name := e.nameF.getD "Unknown", status := .closed,
                  opening_time := none, closing_time := none })
    | h :: _ =>
      .ok (some { id := ids, name := e.nameF.getD "Unknown", status := .open',
                  opening_time := _parse_dt h.hourFrom,
                  closing_time := _parse_dt h.hourTo })

/-- The `fetch_shops` loop over all raw entries, in order. -/
def shopsList : List RawEntry → Except PyErr (List Shop)
  | [] => .ok []
  | e :: rest => do
    let s? ← shopOfEntry e
    let rest' ← shopsList rest
    .ok (match s? with | some s => s :: rest' | none => rest')

/-- `fetch_shops`: a failed `_fetch_wis` is caught and yields `[]`. -/
def fetch_shops (fetched : Except PyErr WisPayload) : Except PyErr (List Shop) :=
  match fetched with
  | .error _ => .ok []
  | .ok data => shopsList data.attractionInfo

/-!  Source response cache (`EftelingConnector._fetch_wis`).  The
upstream transport is a parameter: one call consults it at most once,
and the `upstreamCalls` counter records whether it did. -/

/-- The connector's mutable cache fields (`_wis_cache`, `_wis_cache_time`). -/
structure WisCacheState where
  cache : Option WisPayload
  cacheTime : Option Int
deriving DecidableEq, Repr

/-- Cache TTL in seconds (`WIS_CACHE_SECONDS`). -/
def WIS_CACHE_SECONDS : Int := 60

/-- Observable outcome of one `_fetch_wis` call. -/
structure FetchWisOutcome where
  result : Except PyErr WisPayload
  state : WisCacheState
  upstreamCalls : Nat
deriving Repr

/-- Cache-miss path of `_fetch_wis`: hit upstream once; on success store
the payload with the call's timestamp, on failure leave the state
untouched and propagate. -/
def fetchFresh (st : WisCacheState) (now : Int)
    (upstream : Except PyErr WisPayload) : FetchWisOutcome :=
  match upstream with
  | .ok d => ⟨.ok d, ⟨some d, some now⟩, 1⟩
  | .error e => ⟨.error e, st, 1⟩

/-- `_fetch_wis`: serve the cached payload while it is younger than the
TTL, otherwise refresh through `fetchFresh`. -/
def _fetch_wis (st : WisCacheState) (now : Int)
    (upstream : Except PyErr WisPayload) : FetchWisOutcome :=
  match st.cache, st.cacheTime with
  | some c, some t =>
    if now - t < WIS_CACHE_SECONDS then ⟨.ok c, st, 0⟩
    else fetchFresh st now upstream
  | some _, none => fetchFresh st now upstream
  | none, _ => fetchFresh st now upstream

/-!  Scheduler (`app/scheduler.py`). -/

/-- `_derive_park_status`: `unknown` for an empty list, else `open` iff
some attraction's status value is `open` or `open_soon`. -/
def _derive_park_status (attractions : List AttractionLive) : String :=
  if attractions.isEmpty then "unknown"
  else if attractions.any
      (fun a => a.status.value == "open" || a.status.value == "open_soon")
    then "open" else "closed"

/-- The `live_data` aggregate written as `live.json` for one source. -/
structure LiveSnapshot where
  park_id : String
  park_name : String
  last_updated : Int
  park_status : String
  attractions : List AttractionLive
  shows : List Show
  restaurants : List Restaurant
  shops : List Shop
deriving DecidableEq, Repr

/-- Construction of the `live_data` dict in `_fetch_park_live`. -/
def buildLiveData (park_id park_name : String) (now : Int)
    (attractions : List AttractionLive) (shows : List Show)
    (restaurants : List Restaurant) (shops : List Shop) : LiveSnapshot :=
  { park_id := park_id, park_name := park_name, last_updated := now,
    park_status := _derive_park_status attractions,
    attractions := attractions, shows := shows,
    restaurants := restaurants, shops := shops }

/-- `_fetch_park_live` for one source: run the four fetches (all four
read the same cached WIS response within one tick) and assemble the
snapshot; an exception escaping any fetch aborts this source's step. -/
def _fetch_park_live (park_id park_name : String) (now nowPark : Int)
    (fetched : Except PyErr WisPayload) : Except PyErr LiveSnapshot := do
  let attractions ← fetch_wait_times fetched nowPark
  let shows ← fetch_shows fetched nowPark
  let restaurants ← fetch_restaurants fetched
  let shops ← fetch_shops fetched
  .ok (buildLiveData park_id park_name now attractions shows restaurants shops)

/-- The per-source `try/except` of a scheduler tick: a succeeding step
appends its write, a raising step is caught and contributes nothing. -/
def collectStep {A : Type} (acc : List (String × A)) (p : String × Except PyErr A) :
    List (String × A) :=
  match p.2 with
  | .ok x => acc ++ [(p.1, x)]
  | .error _ => acc

/-- A source's contribution to a tick, as an optional write. -/
def collectOk {A : Type} (p : String × Except PyErr A) : Option (String × A) :=
  match p.2 with
  | .ok x => some (p.1, x)
  | .error _ => none

/-- `fetch_all_live`: iterate the registry in order; each source's step
outcome is given as an `Except`; a failing step is caught and logged,
a succeeding step's snapshot is written.  The returned list is the
sequence of snapshot writes performed by the tick. -/
def fetchAllLive (parks : List (String × Except PyErr LiveSnapshot)) :
    List (String × LiveSnapshot) :=
  parks.foldl collectStep []

/-- Calendar aggregate written as `calendar.json`; the scheduler claims
treat it as opaque, so only identification fields are modelled. -/
structure ParkCalendar where
  park_id : String
  park_name : String
  last_updated : Int
deriving DecidableEq, Repr

/-- `fetch_all_calendars`: same per-source isolation as `fetchAllLive`. -/
def fetchAllCalendars (parks : List (String × Except PyErr ParkCalendar)) :
    List (String × ParkCalendar) :=
  parks.foldl collectStep []

/-!  Snapshot writer (`_write_json`): a file system trace model.  File
contents are a map from path to optional content; the write is a trace
of micro-steps (create/truncate the temporary file, stream the
serialized chunks into it, then one atomic rename), and the claim is
about what a reader of the final path sees after any prefix of the
trace. -/

/-- File-system contents: path to file content. -/
def FsState := String → Option String

/-- Update one path. -/
def setPath (st : FsState) (p : String) (v : Option String) : FsState :=
  fun q => if q = p then v else st q

/-- Micro-steps of the writer. -/
inductive FsOp
  | truncate (path : String)
  | append (path : String) (chunk : String)
  | rename (src dst : String)
deriving DecidableEq, Repr

/-- Effect of one micro-step; `rename` moves the content in one step. -/
def applyOp (st : FsState) : FsOp → FsState
  | .truncate p => setPath st p (some "")
  | .append p c => setPath st p (some ((st p).getD "" ++ c))
  | .rename src dst => setPath (setPath st dst (st src)) src none

/-- Effect of a sequence of micro-steps. -/
def applyOps (st : FsState) (ops : List FsOp) : FsState :=
  ops.foldl applyOp st

/-- Final path of a snapshot file (`park_dir / filename`). -/
def finalPath (parkDir filename : String) : String :=
  parkDir ++ "/" ++ filename

/-- Temporary path, colocated with the final path
(`park_dir / (filename + ".tmp")`). -/
def tmpPath (parkDir filename : String) : String :=
  parkDir ++ "/" ++ filename ++ ".tmp"

/-- The trace of `_write_json`: `open(tmp, "w")` truncates the temporary
file, `json.dump` streams the serialized chunks into it, and
`tmp.rename(final)` switches it into place in one operation. -/
def _write_json_steps (parkDir filename : String) (chunks : List String) :
    List FsOp :=
  FsOp.truncate (tmpPath parkDir filename)
    :: chunks.map (FsOp.append (tmpPath parkDir filename))
    ++ [FsOp.rename (tmpPath parkDir filename) (finalPath parkDir filename)]

/-!  Claims about the source response cache and the scheduler. -/

/-- C7: while a cached payload is younger than the 60-second TTL,
`_fetch_wis` returns it without touching upstream or the cache state;
once no fresh-enough cache exists, the call hits upstream exactly once,
a success is stored with the call's timestamp, and a failure leaves the
cached payload and timestamp unchanged and propagates the error. -/
theorem c7_wis_cache_spec :
    ∀ (st : WisCacheState) (now : Int) (upstream : Except PyErr WisPayload),
      (∀ c t, st.cache = some c → st.cacheTime = some t →
        now - t < WIS_CACHE_SECONDS →
        _fetch_wis st now upstream = ⟨.ok c, st, 0⟩) ∧
      ((st.cache = none ∨ st.cacheTime = none ∨
          (∃ t, st.cacheTime = some t ∧ WIS_CACHE_SECONDS ≤ now - t)) →
        (_fetch_wis st now upstream).upstreamCalls = 1 ∧
        (∀ d, upstream = .ok d →
          _fetch_wis st now upstream = ⟨.ok d, ⟨some d, some now⟩, 1⟩) ∧
        (∀ e, upstream = .error e →
          _fetch_wis st now upstream = ⟨.error e, st, 1⟩)) := by
  intro st now upstream
  obtain ⟨cOpt, tOpt⟩ := st
  constructor
  · rintro c t hc ht hlt
    simp only at hc ht
    subst hc; subst ht
    simp [_fetch_wis, hlt]
  · intro hexp
    have hfresh : _fetch_wis ⟨cOpt, tOpt⟩ now upstream = fetchFresh ⟨cOpt, tOpt⟩ now upstream := by
      rcases hexp with hc | ht | ⟨t, ht, hge⟩
      · simp only at hc; subst hc; rfl
      · simp only at ht; subst ht
        cases cOpt <;> rfl
      · simp only at ht; subst ht
        cases cOpt with
        | none => rfl
        | some c => simp [_fetch_wis, not_lt.mpr hge]
    rw [hfresh]
    refine ⟨?_, ?_, ?_⟩
    · cases upstream <;> rfl
    · rintro d rfl; rfl
    · rintro e rfl; rfl

/-- Witness for C7: a 30-second-old cache is served without an upstream
call even when upstream would fail; at exactly the TTL age the call
refreshes, and a failing refresh keeps the old state. -/
theorem c7_wis_cache_spec_witness :
    _fetch_wis ⟨some ⟨[]⟩, some 0⟩ 30 (.error .typeError) = ⟨.ok ⟨[]⟩, ⟨some ⟨[]⟩, some 0⟩, 0⟩ ∧
    _fetch_wis ⟨some ⟨[]⟩, some 0⟩ 60 (.ok ⟨[{ nameF := some "n" }]⟩) =
      ⟨.ok ⟨[{ nameF := some "n" }]⟩, ⟨some ⟨[{ nameF := some "n" }]⟩, some 60⟩, 1⟩ ∧
    _fetch_wis ⟨some ⟨[]⟩, some 0⟩ 60 (.error .typeError) = ⟨.error .typeError, ⟨some ⟨[]⟩, some 0⟩, 1⟩ :=
  ⟨(c7_wis_cache_spec ⟨some ⟨[]⟩, some 0⟩ 30 (.error .typeError)).1 ⟨[]⟩ 0 rfl rfl (by decide),
   ((c7_wis_cache_spec ⟨some ⟨[]⟩, some 0⟩ 60 (.ok ⟨[{ nameF := some "n" }]⟩)).2
      (Or.inr (Or.inr ⟨0, rfl, by decide⟩))).2.1 ⟨[{ nameF := some "n" }]⟩ rfl,
   ((c7_wis_cache_spec ⟨some ⟨[]⟩, some 0⟩ 60 (.error .typeError)).2
      (Or.inr (Or.inr ⟨0, rfl, by decide⟩))).2.2 .typeError rfl⟩

theorem collect_ok_eq {A : Type} (parks : List (String × Except PyErr A))
    (acc : List (String × A)) :
    parks.foldl collectStep acc = acc ++ parks.filterMap collectOk := by
  induction parks generalizing acc with
  | nil => simp
  | cons p rest ih =>
    obtain ⟨pid, r⟩ := p
    cases r with
    | error e => simpa [collectStep, collectOk] using ih acc
    | ok x => simp [collectStep, collectOk, ih]

theorem fetchAllLive_eq_filterMap (parks : List (String × Except PyErr LiveSnapshot)) :
    fetchAllLive parks = parks.filterMap collectOk := by
  unfold fetchAllLive
  rw [collect_ok_eq]
  simp

theorem fetchAllCalendars_eq_filterMap (parks : List (String × Except PyErr ParkCalendar)) :
    fetchAllCalendars parks = parks.filterMap collectOk := by
  unfold fetchAllCalendars
  rw [collect_ok_eq]
  simp

/-- C8: per-source isolation of the two scheduler jobs.  Any source whose
per-source step succeeds has its snapshot written no matter what the
other sources in the tick do; a source whose step raises is simply
absent from the tick's writes, contributing nothing and aborting
nothing. -/
theorem c8_scheduler_isolation :
    (∀ (parks : List (String × Except PyErr LiveSnapshot)) (pid : String)
        (snap : LiveSnapshot),
      (pid, Except.ok snap) ∈ parks → (pid, snap) ∈ fetchAllLive parks) ∧
    (∀ (pre post : List (String × Except PyErr LiveSnapshot)) (a : String) (e : PyErr),
      fetchAllLive (pre ++ (a, Except.error e) :: post) =
        fetchAllLive pre ++ fetchAllLive post) ∧
    (∀ (parks : List (String × Except PyErr ParkCalendar)) (pid : String)
        (cal : ParkCalendar),
      (pid, Except.ok cal) ∈ parks → (pid, cal) ∈ fetchAllCalendars parks) ∧
    (∀ (pre post : List (String × Except PyErr ParkCalendar)) (a : String) (e : PyErr),
      fetchAllCalendars (pre ++ (a, Except.error e) :: post) =
        fetchAllCalendars pre ++ fetchAllCalendars post) := by
  refine ⟨?_, ?_, ?_, ?_⟩
  · intro parks pid snap hmem
    rw [fetchAllLive_eq_filterMap]
    exact List.mem_filterMap.mpr ⟨(pid, Except.ok snap), hmem, rfl⟩
  · intro pre post a e
    simp [fetchAllLive_eq_filterMap, collectOk]
  · intro parks pid cal hmem
    rw [fetchAllCalendars_eq_filterMap]
    exact List.mem_filterMap.mpr ⟨(pid, Except.ok cal), hmem, rfl⟩
  · intro pre post a e
    simp [fetchAllCalendars_eq_filterMap, collectOk]

/-- Witness for C8: in a tick where the first source throws, the second
source's snapshot is still written. -/
theorem c8_scheduler_isolation_witness :
    ("europapark", buildLiveData "europapark" "Europa-Park" 0 [] [] [] []) ∈
      fetchAllLive
        [("efteling", Except.error .typeError),
         ("europapark", Except.ok (buildLiveData "europapark" "Europa-Park" 0 [] [] [] []))] :=
  c8_scheduler_isolation.1 _ "europapark"
    (buildLiveData "europapark" "Europa-Park" 0 [] [] [] []) (by simp)

theorem status_flag_iff (s : AttractionStatus) :
    ((s.value == "open" || s.value == "open_soon") = true) ↔
      (s = .open' ∨ s = .open_soon) := by
  cases s <;> decide

theorem derive_status_cases (l : List AttractionLive) :
    (l = [] → _derive_park_status l = "unknown") ∧
    ((∃ a ∈ l, a.status = .open' ∨ a.status = .open_soon) →
      _derive_park_status l = "open") ∧
    (l ≠ [] → (∀ a ∈ l, a.status ≠ .open' ∧ a.status ≠ .open_soon) →
      _derive_park_status l = "closed") ∧
    (_derive_park_status l = "unknown" ∨ _derive_park_status l = "open" ∨
      _derive_park_status l = "closed") := by
  refine ⟨?_, ?_, ?_, ?_⟩
  · rintro rfl; rfl
  · rintro ⟨a, ha, hs⟩
    have hne : l.isEmpty = false := by
      cases l with
      | nil => simp at ha
      | cons x xs => rfl
    have hany : l.any (fun a => a.status.value == "open" || a.status.value == "open_soon")
        = true :=
      List.any_eq_true.mpr ⟨a, ha, (status_flag_iff a.status).mpr hs⟩
    simp [_derive_park_status, hne, hany]
  · intro hne hall
    have hemp : l.isEmpty = false := by
      cases l with
      | nil => exact absurd rfl hne
      | cons x xs => rfl
    have hany : l.any (fun a => a.status.value == "open" || a.status.value == "open_soon")
        = false := by
      rw [List.any_eq_false]
      intro a ha
      intro hflag
      rcases (status_flag_iff a.status).mp hflag with h | h
      · exact (hall a ha).1 h
      · exact (hall a ha).2 h
    simp [_derive_park_status, hemp, hany]
  · unfold _derive_park_status
    by_cases h1 : l.isEmpty
    · simp [h1]
    · by_cases h2 : l.any (fun a => a.status.value == "open" || a.status.value == "open_soon")
      · simp [h1, h2]
      · simp [h1, h2]

/-- C10: for every live snapshot a per-source step produces, the derived
`park_status` is `unknown` exactly on an empty attraction list, `open`
when some attraction is `open` or `open_soon`, `closed` otherwise, and
never anything else. -/
theorem c10_park_status_derivation :
    ∀ (pid pname : String) (now nowPark : Int) (fetched : Except PyErr WisPayload)
      (snap : LiveSnapshot),
      _fetch_park_live pid pname now nowPark fetched = .ok snap →
      ((snap.attractions = [] → snap.park_status = "unknown") ∧
       ((∃ a ∈ snap.attractions, a.status = .open' ∨ a.status = .open_soon) →
         snap.park_status = "open") ∧
       (snap.attractions ≠ [] →
         (∀ a ∈ snap.attractions, a.status ≠ .open' ∧ a.status ≠ .open_soon) →
         snap.park_status = "closed") ∧
       (snap.park_status = "unknown" ∨ snap.park_status = "open" ∨
         snap.park_status = "closed")) := by
  intro pid pname now nowPark fetched snap h
  unfold _fetch_park_live at h
  cases h1 : fetch_wait_times fetched nowPark with
  | error e => rw [h1] at h; exact Except.noConfusion h
  | ok atts =>
    rw [h1] at h
    cases h2 : fetch_shows fetched nowPark with
    | error e => rw [h2] at h; exact Except.noConfusion h
    | ok shs =>
      rw [h2] at h
      cases h3 : fetch_restaurants fetched with
      | error e => rw [h3] at h; exact Except.noConfusion h
      | ok rests =>
        rw [h3] at h
        cases h4 : fetch_shops fetched with
        | error e => rw [h4] at h; exact Except.noConfusion h
        | ok shops =>
          rw [h4] at h
          have hsnap : buildLiveData pid pname now atts shs rests shops = snap :=
            Except.ok.inj h
          subst hsnap
          simpa [buildLiveData] using derive_status_cases atts

/-- Witness for C10: an aborted source step yields the `unknown` case,
and a payload with one open attraction yields the `open` case. -/
theorem c10_park_status_derivation_witness :
    (buildLiveData "efteling" "Efteling" 0 [] [] [] []).park_status = "unknown" ∧
    (buildLiveData "efteling" "Efteling" 0
        [{ id := "a", name := "Unknown", status := .open', wait_time := some 0,
           single_rider := none, virtual_queue := none }] [] [] []).park_status = "open" :=
  ⟨(c10_park_status_derivation "efteling" "Efteling" 0 0 (.error .typeError)
      (buildLiveData "efteling" "Efteling" 0 [] [] [] []) rfl).1 rfl,
   (c10_park_status_derivation "efteling" "Efteling" 0 0
      (.ok ⟨[{ idF := some (.jstr "a"), typeF := some "Attraction",
               stateF := some "open" }]⟩)
      (buildLiveData "efteling" "Efteling" 0
        [{ id := "a", name := "Unknown", status := .open', wait_time := some 0,
           single_rider := none, virtual_queue := none }] [] [] []) rfl).2.1
    (by decide)⟩

/-- C3 counterexample: for `enabled` with a negative raw wait of `-5`
minutes at park-local 2026-02-20T14:00:00, the code uses the negative
value as-is, producing a window starting 13:55:00, not the 14:00:00
window that a default to 0 would give; so "negative … defaults to 0"
fails on the code. -/
theorem c3_counterexample :
    normalizeVQ
        (some { state := some "enabled", waitingTime := some (.jint (-5)) })
        (civilToSec 2026 2 20 14 0 0) =
      some { available := true, state := some .available,
             return_start := some (civilToSec 2026 2 20 13 55 0),
             return_end := some (civilToSec 2026 2 20 14 10 0) } ∧
    civilToSec 2026 2 20 13 55 0 ≠ civilToSec 2026 2 20 14 0 0 := by
  constructor
  · decide
  · decide

/-- C3 (amended): for raw state `enabled` the result is `available` with
`return_start` equal to the park-local now truncated to the minute plus
the raw wait minutes — where a non-numeric (or null/empty) wait defaults
to 0 but a negative wait is used as-is — and `return_end` equal to
`return_start` plus the 15-minute window; in particular, for a wait of
20 minutes at 2026-02-20T14:00:00 the window is
[14:20:00, 14:35:00). -/
theorem c3_vq_enabled_window :
    (∀ (vq : RawVQ) (nowPark : Int),
      pyLower (vq.state.getD "") = "enabled" →
      normalizeVQ (some vq) nowPark =
        some { available := true, state := some .available,
               return_start := some (truncToMinute nowPark +
                 60 * ((pyInt (pyOr vq.waitingTime (.jint 0))).getD 0)),
               return_end := some (truncToMinute nowPark +
                 60 * ((pyInt (pyOr vq.waitingTime (.jint 0))).getD 0) +
                 60 * VQ_WINDOW_MINUTES) }) ∧
    (∀ (nowPark : Int) (s : String),
      pyParseInt s = none →
      normalizeVQ (some { state := some "enabled", waitingTime := some (.jstr s) })
          nowPark =
        some { available := true, state := some .available,
               return_start := some (truncToMinute nowPark),
               return_end := some (truncToMinute nowPark + 60 * VQ_WINDOW_MINUTES) }) ∧
    normalizeVQ (some { state := some "enabled", waitingTime := some (.jint 20) })
        (civilToSec 2026 2 20 14 0 0) =
      some { available := true, state := some .available,
             return_start := some (civilToSec 2026 2 20 14 20 0),
             return_end := some (civilToSec 2026 2 20 14 35 0) } := by
  refine ⟨?_, ?_, by decide⟩
  · intro vq nowPark h
    simp [normalizeVQ, h]
  · intro nowPark s h
    have h0 : (pyInt (pyOr (some (.jstr s)) (.jint 0))).getD 0 = 0 := by
      by_cases ht : (JVal.jstr s).truthy
      · simp [pyOr, ht, pyInt, h]
      · simp [pyOr, ht, pyInt]
    simp only [normalizeVQ, h0]
    rw [if_neg (by decide), if_pos (by decide)]
    simp

/-- Witness for C3 (amended): a capitalised `Enabled` state with an
absent wait at an arbitrary timestamp gives the zero-offset window. -/
theorem c3_vq_enabled_window_witness :
    normalizeVQ (some { state := some "Enabled", waitingTime := none }) 100 =
      some { available := true, state := some .available,
             return_start := some 60, return_end := some 960 } := by
  rw [c3_vq_enabled_window.1 { state := some "Enabled", waitingTime := none } 100 (by decide)]
  decide

/-!  Claim C9: atomicity of the snapshot writer. -/

theorem setPath_other (st : FsState) (p : String) (v : Option String)
    (q : String) (h : q ≠ p) : setPath st p v q = st q := by
  simp [setPath, h]

theorem setPath_self (st : FsState) (p : String) (v : Option String) :
    setPath st p v p = v := by
  simp [setPath]

theorem string_append_tmp_ne (s : String) : s ++ ".tmp" ≠ s := by
  intro h
  have hl := congrArg String.length h
  rw [String.length_append] at hl
  have h4 : (".tmp" : String).length = 4 := rfl
  omega

theorem tmpPath_ne_finalPath (parkDir filename : String) :
    tmpPath parkDir filename ≠ finalPath parkDir filename :=
  string_append_tmp_ne (parkDir ++ "/" ++ filename)

theorem appendOps_other (tmp q : String) (h : q ≠ tmp) :
    ∀ (cs : List String) (st : FsState),
      applyOps st (cs.map (FsOp.append tmp)) q = st q := by
  intro cs
  induction cs with
  | nil => intro st; rfl
  | cons c cs ih =>
    intro st
    have hstep : applyOps st ((c :: cs).map (FsOp.append tmp)) q
        = applyOps (applyOp st (FsOp.append tmp c)) (cs.map (FsOp.append tmp)) q := rfl
    rw [hstep, ih]
    exact setPath_other _ _ _ _ h

theorem string_foldl_append (cs : List String) :
    ∀ a b : String,
      cs.foldl (fun r s => r ++ s) (a ++ b) = a ++ cs.foldl (fun r s => r ++ s) b := by
  induction cs with
  | nil => intro a b; rfl
  | cons d cs ih =>
    intro a b
    show cs.foldl _ ((a ++ b) ++ d) = a ++ cs.foldl _ (b ++ d)
    rw [String.append_assoc]
    exact ih a (b ++ d)

theorem string_join_cons (c : String) (cs : List String) :
    String.join (c :: cs) = c ++ String.join cs := by
  show cs.foldl _ ("" ++ c) = c ++ cs.foldl _ ""
  rw [String.empty_append]
  have h := string_foldl_append cs c ""
  rw [String.append_empty] at h
  exact h

theorem appendOps_tmp (tmp : String) :
    ∀ (cs : List String) (st : FsState) (s : String),
      st tmp = some s →
      applyOps st (cs.map (FsOp.append tmp)) tmp = some (s ++ String.join cs) := by
  intro cs
  induction cs with
  | nil =>
    intro st s h
    rw [show String.join ([] : List String) = "" from rfl, String.append_empty]
    exact h
  | cons c cs ih =>
    intro st s h
    have hstep : applyOps st ((c :: cs).map (FsOp.append tmp)) tmp
        = applyOps (applyOp st (FsOp.append tmp c)) (cs.map (FsOp.append tmp)) tmp := rfl
    rw [hstep, ih (applyOp st (FsOp.append tmp c)) (s ++ c)
        (by simp [applyOp, setPath_self, h])]
    rw [string_join_cons, String.append_assoc]

/-- C9: a snapshot write streams the serialized chunks into a colocated
temporary path distinct from the final path and switches it into place
with one rename, so after any prefix of the write's micro-steps a reader
of the final path sees either the prior content unchanged or the
complete new document, and after the full write it sees exactly the
complete new document. -/
theorem c9_atomic_snapshot_write :
    ∀ (parkDir filename : String) (chunks : List String) (st : FsState),
      tmpPath parkDir filename ≠ finalPath parkDir filename ∧
      (∀ k : Nat,
        applyOps st ((_write_json_steps parkDir filename chunks).take k)
            (finalPath parkDir filename) = st (finalPath parkDir filename) ∨
        applyOps st ((_write_json_steps parkDir filename chunks).take k)
            (finalPath parkDir filename) = some (String.join chunks)) ∧
      applyOps st (_write_json_steps parkDir filename chunks)
          (finalPath parkDir filename) = some (String.join chunks) := by
  intro parkDir filename chunks st
  have hne := tmpPath_ne_finalPath parkDir filename
  have hne' : finalPath parkDir filename ≠ tmpPath parkDir filename := Ne.symm hne
  have hfull : applyOps st (_write_json_steps parkDir filename chunks)
      (finalPath parkDir filename) = some (String.join chunks) := by
    have hsplit : _write_json_steps parkDir filename chunks
        = (FsOp.truncate (tmpPath parkDir filename)
            :: chunks.map (FsOp.append (tmpPath parkDir filename)))
          ++ [FsOp.rename (tmpPath parkDir filename) (finalPath parkDir filename)] := by
      simp [_write_json_steps]
    rw [hsplit]
    have htmp : applyOps st
        (FsOp.truncate (tmpPath parkDir filename)
          :: chunks.map (FsOp.append (tmpPath parkDir filename)))
        (tmpPath parkDir filename) = some (String.join chunks) := by
      have hstep : applyOps st
          (FsOp.truncate (tmpPath parkDir filename)
            :: chunks.map (FsOp.append (tmpPath parkDir filename)))
          (tmpPath parkDir filename)
          = applyOps (applyOp st (FsOp.truncate (tmpPath parkDir filename)))
              (chunks.map (FsOp.append (tmpPath parkDir filename)))
              (tmpPath parkDir filename) := rfl
      rw [hstep, appendOps_tmp _ chunks _ ""
          (by simp [applyOp, setPath_self])]
      simp [String.empty_append]
    rw [applyOps, List.foldl_append]
    show applyOp (applyOps st _) (FsOp.rename _ _) _ = _
    rw [applyOp]
    rw [setPath_other _ _ _ _ hne']
    rw [setPath_self]
    exact htmp
  refine ⟨hne, ?_, hfull⟩
  intro k
  by_cases hk : (_write_json_steps parkDir filename chunks).length ≤ k
  · right
    rw [List.take_of_length_le hk]
    exact hfull
  · left
    push_neg at hk
    cases k with
    | zero => rfl
    | succ k =>
      have hlen : (_write_json_steps parkDir filename chunks).length
          = chunks.length + 2 := by
        simp [_write_json_steps]
      have hkle : k ≤ chunks.length := by omega
      have htake : (_write_json_steps parkDir filename chunks).take (k + 1)
          = FsOp.truncate (tmpPath parkDir filename)
            :: (chunks.take k).map (FsOp.append (tmpPath parkDir filename)) := by
        simp only [_write_json_steps]
        rw [List.take_append_of_le_length
          (by simp only [List.length_cons, List.length_map]; omega)]
        rw [List.take_succ_cons, ← List.map_take]
      rw [htake]
      have hstep : applyOps st
          (FsOp.truncate (tmpPath parkDir filename)
            :: (chunks.take k).map (FsOp.append (tmpPath parkDir filename)))
          (finalPath parkDir filename)
          = applyOps (applyOp st (FsOp.truncate (tmpPath parkDir filename)))
              ((chunks.take k).map (FsOp.append (tmpPath parkDir filename)))
              (finalPath parkDir filename) := rfl
      rw [hstep, appendOps_other _ _ hne']
      exact setPath_other _ _ _ _ hne'

/-- Witness for C9 at a concrete write trace over an empty file system. -/
theorem c9_atomic_snapshot_write_witness :
    applyOps (fun _ => none)
        (_write_json_steps "/data/efteling" "live.json" ["ab", "cd"])
        (finalPath "/data/efteling" "live.json") =
      some (String.join ["ab", "cd"]) :=
  (c9_atomic_snapshot_write "/data/efteling" "live.json" ["ab", "cd"] (fun _ => none)).2.2

/-!  Claim C2: the virtual-queue window invariant. -/

theorem normalizeVQ_invariant (vqRaw : Option RawVQ) (nowPark : Int)
    (vq : VirtualQueueInfo) (h : normalizeVQ vqRaw nowPark = some vq) :
    ((vq.state = some .available) ↔ (vq.return_start.isSome ∧ vq.return_end.isSome)) ∧
    (∀ rs re, vq.return_start = some rs → vq.return_end = some re →
      re - rs = 60 * VQ_WINDOW_MINUTES) := by
  cases vqRaw with
  | none => simp [normalizeVQ] at h
  | some v =>
    simp only [normalizeVQ] at h
    by_cases h1 : pyLower (v.state.getD "") = "walkin"
    · rw [if_pos h1] at h
      injection h with h
      subst h
      exact ⟨by simp, by intro rs re hrs hre; simp at hrs⟩
    · rw [if_neg h1] at h
      by_cases h2 : pyLower (v.state.getD "") = "enabled"
      · rw [if_pos h2] at h
        injection h with h
        subst h
        refine ⟨by simp, ?_⟩
        intro rs re hrs hre
        injection hrs with hrs
        injection hre with hre
        subst hrs
        subst hre
        simp only [VQ_WINDOW_MINUTES]
        omega
      · rw [if_neg h2] at h
        by_cases h3 : pyLower (v.state.getD "") = "full"
        · rw [if_pos h3] at h
          injection h with h
          subst h
          exact ⟨by simp, by intro rs re hrs hre; simp at hrs⟩
        · rw [if_neg h3] at h
          injection h with h
          subst h
          exact ⟨by simp, by intro rs re hrs hre; simp at hrs⟩

theorem fetch_wait_times_mem (fetched : Except PyErr WisPayload) (nowPark : Int)
    (out : List AttractionLive) (a : AttractionLive)
    (hout : fetch_wait_times fetched nowPark = .ok out) (ha : a ∈ out) :
    ∃ allE srMap kv, processEntry allE srMap nowPark kv = some a := by
  cases fetched with
  | error e =>
    obtain rfl := Except.ok.inj hout
    cases ha
  | ok data =>
    have hcore : waitTimesCore data nowPark = Except.ok out := hout
    unfold waitTimesCore at hcore
    cases h1 : dictOfEntries data.attractionInfo with
    | error err => rw [h1] at hcore; exact Except.noConfusion hcore
    | ok allE =>
      rw [h1] at hcore
      have hcore2 : (buildSrMap (List.map Prod.fst allE) >>= fun srMap =>
          Except.ok (List.filterMap (processEntry allE srMap nowPark) allE))
          = Except.ok out := hcore
      cases h2 : buildSrMap (List.map Prod.fst allE) with
      | error err => rw [h2] at hcore2; exact Except.noConfusion hcore2
      | ok srMap =>
        rw [h2] at hcore2
        obtain rfl := Except.ok.inj hcore2
        obtain ⟨kv, hkv, hp⟩ := List.mem_filterMap.mp ha
        exact ⟨allE, srMap, kv, hp⟩

theorem processEntry_vq (allE : List (JVal × RawEntry)) (srMap : List (JVal × JVal))
    (nowPark : Int) (kv : JVal × RawEntry) (a : AttractionLive)
    (hp : processEntry allE srMap nowPark kv = some a) :
    a.virtual_queue = normalizeVQ kv.2.virtualQueue nowPark := by
  unfold processEntry at hp
  by_cases hb1 : !typeIsAttraction kv.2.typeF
  · rw [if_pos hb1] at hp; exact Option.noConfusion hp
  · rw [if_neg hb1] at hp
    by_cases hb2 : (srMap.map Prod.fst).contains kv.1
    · rw [if_pos hb2] at hp; exact Option.noConfusion hp
    · rw [if_neg hb2] at hp
      injection hp with hp
      rw [← hp]

/-- C2: in every attraction `fetch_wait_times` returns, the virtual
queue (when present) is `available` exactly when both return-window
bounds are present, and a present window always spans exactly the
15-minute per-source constant. -/
theorem c2_vq_window_invariant :
    ∀ (fetched : Except PyErr WisPayload) (nowPark : Int) (out : List AttractionLive)
      (a : AttractionLive) (vq : VirtualQueueInfo),
      fetch_wait_times fetched nowPark = .ok out → a ∈ out →
      a.virtual_queue = some vq →
      ((vq.state = some .available) ↔ (vq.return_start.isSome ∧ vq.return_end.isSome)) ∧
      (∀ rs re, vq.return_start = some rs → vq.return_end = some re →
        re - rs = 60 * VQ_WINDOW_MINUTES) := by
  intro fetched nowPark out a vq hout ha hvq
  obtain ⟨allE, srMap, kv, hp⟩ := fetch_wait_times_mem fetched nowPark out a hout ha
  have hvq' := processEntry_vq allE srMap nowPark kv a hp
  exact normalizeVQ_invariant kv.2.virtualQueue nowPark vq (hvq'.symm.trans hvq)

/-- Witness for C2 at a concrete enabled virtual queue. -/
theorem c2_vq_window_invariant_witness :
    ((some VirtualQueueState.available = some VirtualQueueState.available) ↔
      ((some (1200 : Int)).isSome ∧ (some (2100 : Int)).isSome)) ∧
    (∀ rs re, some (1200 : Int) = some rs → some (2100 : Int) = some re →
      re - rs = 60 * VQ_WINDOW_MINUTES) :=
  c2_vq_window_invariant
    (.ok ⟨[{ idF := some (.jstr "base"), typeF := some "Attraction",
             stateF := some "open", waitingTimeF := some (.jint 10),
             virtualQueue := some { state := some "enabled",
                                    waitingTime := some (.jint 20) } }]⟩)
    0
    [{ id := "base", name := "Unknown", status := .open', wait_time := some 10,
       single_rider := none,
       virtual_queue := some { available := true, state := some .available,
                               return_start := some 1200, return_end := some 2100 } }]
    { id := "base", name := "Unknown", status := .open', wait_time := some 10,
      single_rider := none,
      virtual_queue := some { available := true, state := some .available,
                              return_start := some 1200, return_end := some 2100 } }
    { available := true, state := some .available,
      return_start := some 1200, return_end := some 2100 }
    rfl (by simp) rfl

/-!  Claim C6: derived show status. -/

theorem showsList_mem (nowPark : Int) :
    ∀ (entries : List RawEntry) (out : List Show) (sh : Show),
      showsList nowPark entries = .ok out → sh ∈ out →
      ∃ e ∈ entries, showOfEntry nowPark e = .ok (some sh) := by
  intro entries
  induction entries with
  | nil =>
    intro out sh h hm
    obtain rfl := Except.ok.inj h
    cases hm
  | cons e rest ih =>
    intro out sh h hm
    simp only [showsList] at h
    cases h1 : showOfEntry nowPark e with
    | error err => rw [h1] at h; exact Except.noConfusion h
    | ok s? =>
      rw [h1] at h
      cases h2 : showsList nowPark rest with
      | error err => rw [h2] at h; exact Except.noConfusion h
      | ok rest' =>
        rw [h2] at h
        have hout := Except.ok.inj h
        cases s? with
        | some s =>
          rw [← hout] at hm
          rcases List.mem_cons.mp hm with rfl | hm'
          · exact ⟨e, List.mem_cons_self e rest, h1⟩
          · obtain ⟨e', he', hse⟩ := ih rest' sh h2 hm'
            exact ⟨e', List.mem_cons_of_mem e he', hse⟩
        | none =>
          rw [← hout] at hm
          obtain ⟨e', he', hse⟩ := ih rest' sh h2 hm
          exact ⟨e', List.mem_cons_of_mem e he', hse⟩

theorem status_open_iff (L : List ShowTime) (nowPark : Int) :
    (((if L.any (fun st => decide (nowPark ≤ st.start_date_time))
        then "open" else "closed") = "open") ↔
      ∃ st ∈ L, nowPark ≤ st.start_date_time) ∧
    ((if L.any (fun st => decide (nowPark ≤ st.start_date_time))
        then "open" else "closed") = "open" ∨
     (if L.any (fun st => decide (nowPark ≤ st.start_date_time))
        then "open" else "closed") = "closed") := by
  by_cases hany : L.any (fun st => decide (nowPark ≤ st.start_date_time)) = true
  · rw [if_pos hany]
    constructor
    · constructor
      · intro _
        obtain ⟨st, hst, hdec⟩ := List.any_eq_true.mp hany
        exact ⟨st, hst, of_decide_eq_true hdec⟩
      · intro _; rfl
    · left; rfl
  · rw [if_neg hany]
    constructor
    · constructor
      · intro hcl; exact absurd hcl (by decide)
      · rintro ⟨st, hst, hle⟩
        have hta : L.any (fun st => decide (nowPark ≤ st.start_date_time)) = true :=
          List.any_eq_true.mpr ⟨st, hst, decide_eq_true hle⟩
        exact absurd hta hany
    · right; rfl

theorem showOfEntry_status (nowPark : Int) (e : RawEntry) (sh : Show)
    (h : showOfEntry nowPark e = .ok (some sh)) :
    (sh.status = "open" ∨ sh.status = "closed") ∧
    (sh.status = "open" ↔ ∃ st ∈ sh.show_times, nowPark ≤ st.start_date_time) := by
  unfold showOfEntry at h
  by_cases ht : e.typeF != some "Shows en Entertainment"
  · rw [if_pos ht] at h
    have := Except.ok.inj h
    exact Option.noConfusion this
  · rw [if_neg ht] at h
    cases hid : idLower e.idF with
    | error err => rw [hid] at h; exact Except.noConfusion h
    | ok ids =>
      rw [hid] at h
      have hsh := Except.ok.inj h
      injection hsh with hsh
      subst hsh
      exact ⟨(status_open_iff _ nowPark).2, (status_open_iff _ nowPark).1⟩

/-- C6 (amended): every show `fetch_shows` returns has a status derived
from its schedule, not taken from the payload: `open` exactly when at
least one scheduled interval has a start time at or after the
park-local fetch time (so a show whose last performance is still
running is already `closed`), and `closed` otherwise. -/
theorem c6_show_status_derived :
    ∀ (fetched : Except PyErr WisPayload) (nowPark : Int) (out : List Show) (sh : Show),
      fetch_shows fetched nowPark = .ok out → sh ∈ out →
      (sh.status = "open" ∨ sh.status = "closed") ∧
      (sh.status = "open" ↔ ∃ st ∈ sh.show_times, nowPark ≤ st.start_date_time) := by
  intro fetched nowPark out sh hout hm
  cases fetched with
  | error e =>
    obtain rfl := Except.ok.inj hout
    cases hm
  | ok data =>
    obtain ⟨e, he, hse⟩ := showsList_mem nowPark data.attractionInfo out sh hout hm
    exact showOfEntry_status nowPark e sh hse

/-- C6 counterexample: a show whose only interval runs 14:00:00 to
15:00:00 is reported `closed` at 14:30:00 even though the interval has
not yet ended — the code tests the interval's start, not its end, so
"open iff at least one interval has not yet ended" fails. -/
theorem c6_counterexample :
    fetch_shows
        (.ok ⟨[{ idF := some (.jstr "Raveleijn"),
                 typeF := some "Shows en Entertainment",
                 showTimes := some [{ startDateTime := some (.jstr "2026-02-20T14:00:00"),
                                      endDateTime := some (.jstr "2026-02-20T15:00:00") }] }]⟩)
        (civilToSec 2026 2 20 14 30 0) =
      .ok [{ id := "raveleijn", name := "Unknown", status := "closed",
             show_times := [{ start_date_time := civilToSec 2026 2 20 14 0 0,
                              end_date_time := civilToSec 2026 2 20 15 0 0,
                              edition := some "Showtime" }] }] ∧
    civilToSec 2026 2 20 14 30 0 ≤ civilToSec 2026 2 20 15 0 0 := by
  constructor
  · rfl
  · decide

/-- Witness for C6 at a show with one still-upcoming interval. -/
theorem c6_show_status_derived_witness :
    (("open" : String) = "open" ∨ ("open" : String) = "closed") ∧
    (("open" : String) = "open" ↔
      ∃ st ∈ [{ start_date_time := civilToSec 2026 2 20 16 0 0,
                end_date_time := civilToSec 2026 2 20 17 0 0,
                edition := some "Showtime" : ShowTime }],
        civilToSec 2026 2 20 14 30 0 ≤ st.start_date_time) := by
  have h := c6_show_status_derived
    (.ok ⟨[{ idF := some (.jstr "Aquanura"),
             typeF := some "Shows en Entertainment",
             showTimes := some [{ startDateTime := some (.jstr "2026-02-20T16:00:00"),
                                  endDateTime := some (.jstr "2026-02-20T17:00:00") }] }]⟩)
    (civilToSec 2026 2 20 14 30 0)
    [{ id := "aquanura", name := "Unknown", status := "open",
       show_times := [{ start_date_time := civilToSec 2026 2 20 16 0 0,
                        end_date_time := civilToSec 2026 2 20 17 0 0,
                        edition := some "Showtime" }] }]
    { id := "aquanura", name := "Unknown", status := "open",
      show_times := [{ start_date_time := civilToSec 2026 2 20 16 0 0,
                       end_date_time := civilToSec 2026 2 20 17 0 0,
                       edition := some "Showtime" }] }
    rfl (by simp)
  exact h

/-!  Claim C5: error handling of the four live fetch methods. -/

/-- C5 counterexample: a raw entry with no `Id` key makes the
`all_entries` dict comprehension raise `KeyError`, which escapes
`fetch_wait_times` instead of skipping that entity — so "never raises; a
missing field causes only that entity to be skipped" fails. -/
theorem c5_counterexample :
    fetch_wait_times
        (.ok ⟨[{ nameF := some "Fata Morgana", typeF := some "Attraction",
                 stateF := some "open" }]⟩) 0
      = .error .keyError := rfl

theorem dictInsert_keys (k : JVal) (e : RawEntry) (acc : List (JVal × RawEntry)) :
    ∀ p ∈ dictInsert k e acc, p.1 = k ∨ ∃ q ∈ acc, p.1 = q.1 := by
  intro p hp
  unfold dictInsert at hp
  by_cases hin : acc.any (fun p => p.1 == k)
  · rw [if_pos hin] at hp
    obtain ⟨q, hq, hpq⟩ := List.mem_map.mp hp
    by_cases hqk : q.1 == k
    · rw [if_pos hqk] at hpq
      left; rw [← hpq]
    · rw [if_neg hqk] at hpq
      right; exact ⟨q, hq, by rw [← hpq]⟩
  · rw [if_neg hin] at hp
    rcases List.mem_append.mp hp with hl | hr
    · right; exact ⟨p, hl, rfl⟩
    · left
      rw [List.mem_singleton.mp hr]

theorem dictOfEntriesAux_ok_strings :
    ∀ (l : List RawEntry) (acc : List (JVal × RawEntry)),
      (∀ e ∈ l, ∃ s, e.idF = some (.jstr s)) →
      (∀ p ∈ acc, ∃ s, p.1 = JVal.jstr s) →
      ∃ d, dictOfEntriesAux acc l = .ok d ∧ ∀ p ∈ d, ∃ s, p.1 = JVal.jstr s := by
  intro l
  induction l with
  | nil => intro acc _ hacc; exact ⟨acc, rfl, hacc⟩
  | cons e rest ih =>
    intro acc hl hacc
    obtain ⟨s, hs⟩ := hl e (List.mem_cons_self e rest)
    have hacc' : ∀ p ∈ dictInsert (.jstr s) e acc, ∃ t, p.1 = JVal.jstr t := by
      intro p hp
      rcases dictInsert_keys (.jstr s) e acc p hp with h | ⟨q, hq, hpq⟩
      · exact ⟨s, h⟩
      · obtain ⟨t, ht⟩ := hacc q hq
        exact ⟨t, by rw [hpq, ht]⟩
    obtain ⟨d, hd, hdstr⟩ :=
      ih (dictInsert (.jstr s) e acc)
        (fun e' he' => hl e' (List.mem_cons_of_mem e he')) hacc'
    refine ⟨d, ?_, hdstr⟩
    simp only [dictOfEntriesAux, hs]
    exact hd

theorem dictOfEntries_ok_strings (l : List RawEntry)
    (hl : ∀ e ∈ l, ∃ s, e.idF = some (.jstr s)) :
    ∃ d, dictOfEntries l = .ok d ∧ ∀ p ∈ d, ∃ s, p.1 = JVal.jstr s :=
  dictOfEntriesAux_ok_strings l [] hl (by intro p hp; cases hp)

theorem findParent_ok (keys : List JVal)
    (hstr : ∀ k ∈ keys, ∃ s, k = JVal.jstr s) (p : String) :
    ∃ r, findParent keys p = .ok r := by
  induction keys with
  | nil => exact ⟨none, rfl⟩
  | cons k rest ih =>
    obtain ⟨s, rfl⟩ := hstr k (List.mem_cons_self k rest)
    have hred : findParent (JVal.jstr s :: rest) p
        = if pyLower s = p then .ok (some (JVal.jstr s)) else findParent rest p := rfl
    by_cases hp : pyLower s = p
    · exact ⟨some (JVal.jstr s), by rw [hred, if_pos hp]⟩
    · obtain ⟨r, hr⟩ := ih (fun k hk => hstr k (List.mem_cons_of_mem _ hk))
      exact ⟨r, by rw [hred, if_neg hp, hr]⟩

theorem buildSrMapAux_ok (keys : List JVal)
    (hkeys : ∀ k ∈ keys, ∃ s, k = JVal.jstr s) :
    ∀ (todo : List JVal) (acc : List (JVal × JVal)),
      (∀ k ∈ todo, ∃ s, k = JVal.jstr s) →
      ∃ m, buildSrMapAux keys acc todo = .ok m := by
  intro todo
  induction todo with
  | nil => intro acc _; exact ⟨acc, rfl⟩
  | cons k rest ih =>
    intro acc htodo
    obtain ⟨s, rfl⟩ := htodo k (List.mem_cons_self k rest)
    have htodo' : ∀ k ∈ rest, ∃ s, k = JVal.jstr s :=
      fun k hk => htodo k (List.mem_cons_of_mem _ hk)
    have hred : buildSrMapAux keys acc (JVal.jstr s :: rest)
        = if srLike (pyLower s) then
            (findParent keys (srStrip (pyLower s)) >>= fun r =>
              match r with
              | some m => buildSrMapAux keys (acc ++ [(JVal.jstr s, m)]) rest
              | none => buildSrMapAux keys acc rest)
          else buildSrMapAux keys acc rest := rfl
    by_cases hsr : srLike (pyLower s)
    · obtain ⟨r, hr⟩ := findParent_ok keys hkeys (srStrip (pyLower s))
      cases r with
      | some m =>
        obtain ⟨m', hm'⟩ := ih (acc ++ [(JVal.jstr s, m)]) htodo'
        exact ⟨m', by rw [hred, if_pos hsr, hr]; exact hm'⟩
      | none =>
        obtain ⟨m', hm'⟩ := ih acc htodo'
        exact ⟨m', by rw [hred, if_pos hsr, hr]; exact hm'⟩
    · obtain ⟨m', hm'⟩ := ih acc htodo'
      exact ⟨m', by rw [hred, if_neg hsr]; exact hm'⟩

theorem waitTimesCore_ok (data : WisPayload) (nowPark : Int)
    (hids : ∀ e ∈ data.attractionInfo, ∃ s, e.idF = some (.jstr s)) :
    ∃ out, fetch_wait_times (.ok data) nowPark = .ok out := by
  obtain ⟨d, hd, hdstr⟩ := dictOfEntries_ok_strings data.attractionInfo hids
  have hkeys : ∀ k ∈ d.map Prod.fst, ∃ s, k = JVal.jstr s := by
    intro k hk
    obtain ⟨p, hp, rfl⟩ := List.mem_map.mp hk
    exact hdstr p hp
  obtain ⟨m, hm⟩ := buildSrMapAux_ok (d.map Prod.fst) hkeys (d.map Prod.fst) [] hkeys
  refine ⟨d.filterMap (processEntry d m nowPark), ?_⟩
  show waitTimesCore data nowPark = _
  unfold waitTimesCore
  rw [hd]
  show (buildSrMap (List.map Prod.fst d) >>= fun srMap =>
      Except.ok (List.filterMap (processEntry d srMap nowPark) d)) = _
  rw [show buildSrMap (List.map Prod.fst d) = buildSrMapAux (d.map Prod.fst) [] (d.map Prod.fst) from rfl]
  rw [hm]
  rfl

theorem showOfEntry_ok (nowPark : Int) (e : RawEntry)
    (h : e.idF = none ∨ ∃ s, e.idF = some (.jstr s)) :
    ∃ r, showOfEntry nowPark e = .ok r := by
  by_cases ht : e.typeF != some "Shows en Entertainment"
  · exact ⟨none, by unfold showOfEntry; rw [if_pos ht]⟩
  · have hid : ∃ x, idLower e.idF = .ok x := by
      rcases h with h | ⟨s, h⟩
      · exact ⟨"", by rw [h]; rfl⟩
      · exact ⟨pyLower s, by rw [h]; rfl⟩
    obtain ⟨x, hx⟩ := hid
    cases hres : showOfEntry nowPark e with
    | ok r => exact ⟨r, rfl⟩
    | error err =>
      exfalso
      unfold showOfEntry at hres
      rw [if_neg ht, hx] at hres
      exact Except.noConfusion hres

theorem showsList_ok (nowPark : Int) :
    ∀ (entries : List RawEntry),
      (∀ e ∈ entries, e.idF = none ∨ ∃ s, e.idF = some (.jstr s)) →
      ∃ out, showsList nowPark entries = .ok out := by
  intro entries
  induction entries with
  | nil => intro _; exact ⟨[], rfl⟩
  | cons e rest ih =>
    intro hids
    obtain ⟨r, hr⟩ := showOfEntry_ok nowPark e (hids e (List.mem_cons_self e rest))
    obtain ⟨rest', hrest⟩ := ih (fun e' he' => hids e' (List.mem_cons_of_mem e he'))
    have hred : showsList nowPark (e :: rest)
        = (showOfEntry nowPark e >>= fun s? =>
            showsList nowPark rest >>= fun rest' =>
              Except.ok (match s? with | some s => s :: rest' | none => rest')) := rfl
    cases r with
    | some s =>
      refine ⟨s :: rest', ?_⟩
      rw [hred, hr]
      show (showsList nowPark rest >>= fun rest' => Except.ok (s :: rest')) = _
      rw [hrest]
      rfl
    | none =>
      refine ⟨rest', ?_⟩
      rw [hred, hr]
      show (showsList nowPark rest >>= fun rest' => Except.ok rest') = _
      rw [hrest]
      rfl

theorem restaurantOfEntry_ok (e : RawEntry)
    (h : e.idF = none ∨ ∃ s, e.idF = some (.jstr s)) :
    ∃ r, restaurantOfEntry e = .ok r := by
  by_cases ht : e.typeF != some "Horeca"
  · exact ⟨none, by unfold restaurantOfEntry; rw [if_pos ht]⟩
  · have hid : ∃ x, idLower e.idF = .ok x := by
      rcases h with h | ⟨s, h⟩
      · exact ⟨"", by rw [h]; rfl⟩
      · exact ⟨pyLower s, by rw [h]; rfl⟩
    obtain ⟨x, hx⟩ := hid
    cases hres : restaurantOfEntry e with
    | ok r => exact ⟨r, rfl⟩
    | error err =>
      exfalso
      unfold restaurantOfEntry at hres
      rw [if_neg ht, hx] at hres
      cases hot : e.openingTimes.getD [] with
      | nil => rw [hot] at hres; exact Except.noConfusion hres
      | cons hh tl => rw [hot] at hres; exact Except.noConfusion hres

theorem restaurantsList_ok :
    ∀ (entries : List RawEntry),
      (∀ e ∈ entries, e.idF = none ∨ ∃ s, e.idF = some (.jstr s)) →
      ∃ out, restaurantsList entries = .ok out := by
  intro entries
  induction entries with
  | nil => intro _; exact ⟨[], rfl⟩
  | cons e rest ih =>
    intro hids
    obtain ⟨r, hr⟩ := restaurantOfEntry_ok e (hids e (List.mem_cons_self e rest))
    obtain ⟨rest', hrest⟩ := ih (fun e' he' => hids e' (List.mem_cons_of_mem e he'))
    have hred : restaurantsList (e :: rest)
        = (restaurantOfEntry e >>= fun r? =>
            restaurantsList rest >>= fun rest' =>
              Except.ok (match r? with | some r => r :: rest' | none => rest')) := rfl
    cases r with
    | some s =>
      refine ⟨s :: rest', ?_⟩
      rw [hred, hr]
      show (restaurantsList rest >>= fun rest' => Except.ok (s :: rest')) = _
      rw [hrest]
      rfl
    | none =>
      refine ⟨rest', ?_⟩
      rw [hred, hr]
      show (restaurantsList rest >>= fun rest' => Except.ok rest') = _
      rw [hrest]
      rfl

theorem shopOfEntry_ok (e : RawEntry)
    (h : e.idF = none ∨ ∃ s, e.idF = some (.jstr s)) :
    ∃ r, shopOfEntry e = .ok r := by
  by_cases ht : e.typeF != some "Souvenirwinkel"
  · exact ⟨none, by unfold shopOfEntry; rw [if_pos ht]⟩
  · have hid : ∃ x, idLower e.idF = .ok x := by
      rcases h with h | ⟨s, h⟩
      · exact ⟨"", by rw [h]; rfl⟩
      · exact ⟨pyLower s, by rw [h]; rfl⟩
    obtain ⟨x, hx⟩ := hid
    cases hres : shopOfEntry e with
    | ok r => exact ⟨r, rfl⟩
    | error err =>
      exfalso
      unfold shopOfEntry at hres
      rw [if_neg ht, hx] at hres
      cases hot : e.openingTimes.getD [] with
      | nil => rw [hot] at hres; exact Except.noConfusion hres
      | cons hh tl => rw [hot] at hres; exact Except.noConfusion hres

theorem shopsList_ok :
    ∀ (entries : List RawEntry),
      (∀ e ∈ entries, e.idF = none ∨ ∃ s, e.idF = some (.jstr s)) →
      ∃ out, shopsList entries = .ok out := by
  intro entries
  induction entries with
  | nil => intro _; exact ⟨[], rfl⟩
  | cons e rest ih =>
    intro hids
    obtain ⟨r, hr⟩ := shopOfEntry_ok e (hids e (List.mem_cons_self e rest))
    obtain ⟨rest', hrest⟩ := ih (fun e' he' => hids e' (List.mem_cons_of_mem e he'))
    have hred : shopsList (e :: rest)
        = (shopOfEntry e >>= fun r? =>
            shopsList rest >>= fun rest' =>
              Except.ok (match r? with | some r => r :: rest' | none => rest')) := rfl
    cases r with
    | some s =>
      refine ⟨s :: rest', ?_⟩
      rw [hred, hr]
      show (shopsList rest >>= fun rest' => Except.ok (s :: rest')) = _
      rw [hrest]
      rfl
    | none =>
      refine ⟨rest', ?_⟩
      rw [hred, hr]
      show (shopsList rest >>= fun rest' => Except.ok rest') = _
      rw [hrest]
      rfl

/-- C5 (amended): each of the four live fetch methods returns `[]` and
never raises when the upstream fetch or payload parsing fails; given
raw entries whose `Id` values are well-typed (a string, or — outside
`fetch_wait_times` — absent), the methods never raise no matter how
malformed every other field is, so an unknown state string, a
non-numeric wait, or an unparseable date degrades only the affected
field or entity while sibling entities are still processed (shown on
concrete sibling payloads); but an entry whose `Id` key is missing makes
`fetch_wait_times` raise `KeyError`, and a present non-string `Id`
raises `AttributeError` in any of the four methods when that category
processes it. -/
theorem c5_error_isolation :
    (∀ (e : PyErr) (nowPark : Int), fetch_wait_times (.error e) nowPark = .ok []) ∧
    (∀ (e : PyErr) (nowPark : Int), fetch_shows (.error e) nowPark = .ok []) ∧
    (∀ e : PyErr, fetch_restaurants (.error e) = .ok []) ∧
    (∀ e : PyErr, fetch_shops (.error e) = .ok []) ∧
    (∀ (data : WisPayload) (nowPark : Int),
      (∀ e ∈ data.attractionInfo, ∃ s, e.idF = some (.jstr s)) →
      ∃ out, fetch_wait_times (.ok data) nowPark = .ok out) ∧
    (∀ (data : WisPayload) (nowPark : Int),
      (∀ e ∈ data.attractionInfo, e.idF = none ∨ ∃ s, e.idF = some (.jstr s)) →
      ∃ out, fetch_shows (.ok data) nowPark = .ok out) ∧
    (∀ data : WisPayload,
      (∀ e ∈ data.attractionInfo, e.idF = none ∨ ∃ s, e.idF = some (.jstr s)) →
      ∃ out, fetch_restaurants (.ok data) = .ok out) ∧
    (∀ data : WisPayload,
      (∀ e ∈ data.attractionInfo, e.idF = none ∨ ∃ s, e.idF = some (.jstr s)) →
      ∃ out, fetch_shops (.ok data) = .ok out) ∧
    fetch_wait_times
        (.ok ⟨[{ idF := some (.jstr "baron"), typeF := some "Attraction",
                 stateF := some "open", waitingTimeF := some (.jstr "NaN") },
               { idF := some (.jstr "vogelrok"), typeF := some "Attraction",
                 stateF := some "open", waitingTimeF := some (.jint 10) }]⟩) 0
      = .ok [{ id := "baron", name := "Unknown", status := .open', wait_time := none,
               single_rider := none, virtual_queue := none },
             { id := "vogelrok", name := "Unknown", status := .open', wait_time := some 10,
               single_rider := none, virtual_queue := none }] ∧
    fetch_shows
        (.ok ⟨[{ idF := some (.jstr "CARO"), typeF := some "Shows en Entertainment",
                 showTimes := some [{ startDateTime := some (.jstr "garbage"),
                                      endDateTime := some (.jstr "2026-02-20T15:00:00") }] },
               { idF := some (.jstr "Efteldingen"), typeF := some "Shows en Entertainment",
                 showTimes := some [{ startDateTime := some (.jstr "2026-02-20T16:00:00"),
                                      endDateTime := some (.jstr "2026-02-20T17:00:00") }] }]⟩) 0
      = .ok [{ id := "caro", name := "Unknown", status := "closed", show_times := [] },
             { id := "efteldingen", name := "Unknown", status := "open",
               show_times := [{ start_date_time := civilToSec 2026 2 20 16 0 0,
                                end_date_time := civilToSec 2026 2 20 17 0 0,
                                edition := some "Showtime" }] }] ∧
    fetch_wait_times (.ok ⟨[{ idF := some (.jint 7), typeF := some "Attraction" }]⟩) 0
      = .error .attributeError ∧
    fetch_shows (.ok ⟨[{ idF := some (.jint 5),
                         typeF := some "Shows en Entertainment" }]⟩) 0
      = .error .attributeError := by
  refine ⟨fun e n => rfl, fun e n => rfl, fun e => rfl, fun e => rfl,
    ?_, ?_, ?_, ?_, rfl, rfl, rfl, rfl⟩
  · intro data nowPark hids
    exact waitTimesCore_ok data nowPark hids
  · intro data nowPark hids
    exact showsList_ok nowPark data.attractionInfo hids
  · intro data hids
    exact restaurantsList_ok data.attractionInfo hids
  · intro data hids
    exact shopsList_ok data.attractionInfo hids

/-- Witness for C5 at a concrete well-identified payload. -/
theorem c5_error_isolation_witness :
    (∃ out, fetch_wait_times
        (.ok ⟨[{ idF := some (.jstr "halvemaen"), typeF := some "Attraction",
                 stateF := some "somethingodd" }]⟩) 0 = .ok out) ∧
    (∃ out, fetch_shows
        (.ok ⟨[{ typeF := some "Shows en Entertainment" }]⟩) 0 = .ok out) :=
  ⟨c5_error_isolation.2.2.2.2.1
      ⟨[{ idF := some (.jstr "halvemaen"), typeF := some "Attraction",
          stateF := some "somethingodd" }]⟩ 0
      (by
        intro e he
        simp only [List.mem_singleton] at he
        subst he
        exact ⟨"halvemaen", rfl⟩),
   c5_error_isolation.2.2.2.2.2.1
      ⟨[{ typeF := some "Shows en Entertainment" }]⟩ 0
      (by
        intro e he
        simp only [List.mem_singleton] at he
        subst he
        exact Or.inl rfl)⟩

/-!  Claim C4: the single-rider merge.  The following definitions are
proof-side closed forms of the internal stages of `fetch_wait_times`
(not source embeddings); each is proved equal to the embedded stage
under well-formed identifiers. -/

/-- Key of a raw entry (meaningful when `idF` is present). -/
def entryKey (e : RawEntry) : JVal := e.idF.getD .jnull

/-- The identifier list of a payload, in payload order. -/
def entryIds (data : WisPayload) : List JVal :=
  data.attractionInfo.map entryKey

/-- The `all_entries` dict of a payload with distinct identifiers. -/
def entriesKeyed (data : WisPayload) : List (JVal × RawEntry) :=
  data.attractionInfo.map (fun e => (entryKey e, e))

/-- Pure form of the lazy parent scan: the first key whose lower-cased
form equals the stripped remainder. -/
def findParentPure (keys : List JVal) (p : String) : Option JVal :=
  keys.find? (fun k => pyLower (jstrD k) == p)

/-- Pure form of one classification step of the single-rider map. -/
def srEntry (keys : List JVal) (k : JVal) : Option (JVal × JVal) :=
  match k with
  | .jstr s =>
    if srLike (pyLower s) then
      match findParentPure keys (srStrip (pyLower s)) with
      | some m => some (k, m)
      | none => none
    else none
  | _ => none

/-- Pure form of the complete single-rider map of a payload. -/
def srMapOf (data : WisPayload) : List (JVal × JVal) :=
  (entryIds data).filterMap (srEntry (entryIds data))

theorem findParent_eq_pure (keys : List JVal)
    (hstr : ∀ k ∈ keys, ∃ s, k = JVal.jstr s) (p : String) :
    findParent keys p = .ok (findParentPure keys p) := by
  induction keys with
  | nil => rfl
  | cons k rest ih =>
    obtain ⟨s, rfl⟩ := hstr k (List.mem_cons_self k rest)
    have hred : findParent (JVal.jstr s :: rest) p
        = if pyLower s = p then .ok (some (JVal.jstr s)) else findParent rest p := rfl
    rw [hred]
    by_cases hp : pyLower s = p
    · rw [if_pos hp]
      unfold findParentPure
      rw [List.find?_cons_of_pos _ (by simp [jstrD, hp])]
    · rw [if_neg hp, ih (fun k hk => hstr k (List.mem_cons_of_mem _ hk))]
      unfold findParentPure
      rw [List.find?_cons_of_neg _ (by simp [jstrD, hp])]

theorem buildSrMapAux_eq (keys : List JVal)
    (hkeys : ∀ k ∈ keys, ∃ s, k = JVal.jstr s) :
    ∀ (todo : List JVal) (acc : List (JVal × JVal)),
      (∀ k ∈ todo, ∃ s, k = JVal.jstr s) →
      buildSrMapAux keys acc todo = .ok (acc ++ todo.filterMap (srEntry keys)) := by
  intro todo
  induction todo with
  | nil => intro acc _; simp [buildSrMapAux]
  | cons k rest ih =>
    intro acc htodo
    obtain ⟨s, rfl⟩ := htodo k (List.mem_cons_self k rest)
    have htodo' : ∀ k ∈ rest, ∃ s, k = JVal.jstr s :=
      fun k hk => htodo k (List.mem_cons_of_mem _ hk)
    have hred : buildSrMapAux keys acc (JVal.jstr s :: rest)
        = if srLike (pyLower s) then
            (findParent keys (srStrip (pyLower s)) >>= fun r =>
              match r with
              | some m => buildSrMapAux keys (acc ++ [(JVal.jstr s, m)]) rest
              | none => buildSrMapAux keys acc rest)
          else buildSrMapAux keys acc rest := rfl
    by_cases hsr : srLike (pyLower s)
    · rw [hred, if_pos hsr, findParent_eq_pure keys hkeys]
      cases hfp : findParentPure keys (srStrip (pyLower s)) with
      | some m =>
        show buildSrMapAux keys (acc ++ [(JVal.jstr s, m)]) rest = _
        rw [ih (acc ++ [(JVal.jstr s, m)]) htodo']
        have hse : srEntry keys (JVal.jstr s) = some (JVal.jstr s, m) := by
          simp [srEntry, hsr, hfp]
        rw [List.filterMap_cons]
        rw [hse]
        rw [List.append_assoc]
        rfl
      | none =>
        show buildSrMapAux keys acc rest = _
        rw [ih acc htodo']
        have hse : srEntry keys (JVal.jstr s) = none := by
          simp [srEntry, hsr, hfp]
        rw [List.filterMap_cons, hse]
    · rw [hred, if_neg hsr, ih acc htodo']
      have hse : srEntry keys (JVal.jstr s) = none := by
        simp [srEntry, hsr]
      rw [List.filterMap_cons, hse]

theorem buildSrMap_eq (keys : List JVal)
    (hkeys : ∀ k ∈ keys, ∃ s, k = JVal.jstr s) :
    buildSrMap keys = .ok (keys.filterMap (srEntry keys)) := by
  unfold buildSrMap
  simpa using buildSrMapAux_eq keys hkeys keys [] hkeys

theorem dictOfEntriesAux_eq :
    ∀ (l : List RawEntry) (acc : List (JVal × RawEntry)),
      (∀ e ∈ l, ∃ s, e.idF = some (.jstr s)) →
      (l.map entryKey).Nodup →
      (∀ e ∈ l, ∀ p ∈ acc, entryKey e ≠ p.1) →
      dictOfEntriesAux acc l = .ok (acc ++ l.map (fun e => (entryKey e, e))) := by
  intro l
  induction l with
  | nil => intro acc _ _ _; simp [dictOfEntriesAux]
  | cons e rest ih =>
    intro acc hids hnd hdis
    obtain ⟨s, hs⟩ := hids e (List.mem_cons_self e rest)
    have hkey : entryKey e = JVal.jstr s := by simp [entryKey, hs]
    have hins : dictInsert (JVal.jstr s) e acc = acc ++ [(JVal.jstr s, e)] := by
      unfold dictInsert
      rw [if_neg ?hne]
      case hne =>
        intro hany
        obtain ⟨p, hp, hbeq⟩ := List.any_eq_true.mp hany
        exact hdis e (List.mem_cons_self e rest) p hp
          (by rw [hkey]; exact (beq_iff_eq.mp hbeq).symm)
    have hnd' : (rest.map entryKey).Nodup := by
      rw [List.map_cons, List.nodup_cons] at hnd
      exact hnd.2
    have hnotin : entryKey e ∉ rest.map entryKey := by
      rw [List.map_cons, List.nodup_cons] at hnd
      exact hnd.1
    have hdis' : ∀ e' ∈ rest, ∀ p ∈ acc ++ [(JVal.jstr s, e)], entryKey e' ≠ p.1 := by
      intro e' he' p hp
      rcases List.mem_append.mp hp with hl | hr
      · exact hdis e' (List.mem_cons_of_mem e he') p hl
      · have hp1 : p.1 = JVal.jstr s := by rw [List.mem_singleton.mp hr]
        rw [hp1, ← hkey]
        intro heq
        exact hnotin (heq ▸ List.mem_map.mpr ⟨e', he', rfl⟩)
    simp only [dictOfEntriesAux, hs]
    rw [hins, ih (acc ++ [(JVal.jstr s, e)])
      (fun e' he' => hids e' (List.mem_cons_of_mem e he')) hnd' hdis']
    rw [List.append_assoc, List.map_cons, hkey]
    rfl

theorem entriesKeyed_fst (data : WisPayload) :
    (entriesKeyed data).map Prod.fst = entryIds data := by
  simp [entriesKeyed, entryIds, entryKey]

theorem entryIds_strings (data : WisPayload)
    (hids : ∀ e ∈ data.attractionInfo, ∃ s, e.idF = some (.jstr s)) :
    ∀ k ∈ entryIds data, ∃ s, k = JVal.jstr s := by
  intro k hk
  obtain ⟨e, he, rfl⟩ := List.mem_map.mp hk
  obtain ⟨s, hs⟩ := hids e he
  exact ⟨s, by simp [entryKey, hs]⟩

theorem fetch_wait_times_eq (data : WisPayload) (nowPark : Int)
    (hids : ∀ e ∈ data.attractionInfo, ∃ s, e.idF = some (.jstr s))
    (hnd : (entryIds data).Nodup) :
    fetch_wait_times (.ok data) nowPark
      = .ok ((entriesKeyed data).filterMap
          (processEntry (entriesKeyed data) (srMapOf data) nowPark)) := by
  show waitTimesCore data nowPark = _
  unfold waitTimesCore
  have hd : dictOfEntries data.attractionInfo = .ok (entriesKeyed data) := by
    unfold dictOfEntries
    have h := dictOfEntriesAux_eq data.attractionInfo [] hids hnd
      (by intro e he p hp; cases hp)
    simpa [entriesKeyed] using h
  rw [hd]
  show (buildSrMap ((entriesKeyed data).map Prod.fst) >>= fun srMap =>
      Except.ok (List.filterMap (processEntry (entriesKeyed data) srMap nowPark)
        (entriesKeyed data))) = _
  rw [entriesKeyed_fst, buildSrMap_eq (entryIds data) (entryIds_strings data hids)]
  rfl

theorem srEntry_fst (keys : List JVal) (k : JVal) (q : JVal × JVal)
    (h : srEntry keys k = some q) : q.1 = k := by
  cases k with
  | jstr s =>
    simp only [srEntry] at h
    by_cases hsr : srLike (pyLower s)
    · rw [if_pos hsr] at h
      cases hfp : findParentPure keys (srStrip (pyLower s)) with
      | some m =>
        rw [hfp] at h
        injection h with h
        rw [← h]
      | none => rw [hfp] at h; exact Option.noConfusion h
    · rw [if_neg hsr] at h; exact Option.noConfusion h
  | jnull => exact Option.noConfusion h
  | jbool b => exact Option.noConfusion h
  | jint n => exact Option.noConfusion h

theorem mem_srMapOf_fst (data : WisPayload) (k : JVal) :
    k ∈ (srMapOf data).map Prod.fst ↔
      (k ∈ entryIds data ∧ srEntry (entryIds data) k ≠ none) := by
  constructor
  · intro hk
    obtain ⟨q, hq, hq1⟩ := List.mem_map.mp hk
    obtain ⟨k', hk', hse⟩ := List.mem_filterMap.mp hq
    have hk'k : k' = k := by rw [← srEntry_fst _ _ _ hse, hq1]
    subst hk'k
    exact ⟨hk', by rw [hse]; exact Option.noConfusion⟩
  · rintro ⟨hk, hne⟩
    obtain ⟨q, hq⟩ := Option.ne_none_iff_exists'.mp hne
    exact List.mem_map.mpr ⟨q, List.mem_filterMap.mpr ⟨k, hk, hq⟩, srEntry_fst _ _ _ hq⟩

theorem processEntry_some (allE : List (JVal × RawEntry)) (srMap : List (JVal × JVal))
    (nowPark : Int) (kv : JVal × RawEntry) (a : AttractionLive)
    (hp : processEntry allE srMap nowPark kv = some a) :
    typeIsAttraction kv.2.typeF = true ∧
    (srMap.map Prod.fst).contains kv.1 = false ∧
    a.id = jstrD (special_merge kv.1) ∧
    a.status = _map_state kv.2.stateF := by
  unfold processEntry at hp
  by_cases hb1 : !typeIsAttraction kv.2.typeF
  · rw [if_pos hb1] at hp; exact Option.noConfusion hp
  · rw [if_neg hb1] at hp
    by_cases hb2 : (srMap.map Prod.fst).contains kv.1
    · rw [if_pos hb2] at hp; exact Option.noConfusion hp
    · rw [if_neg hb2] at hp
      injection hp with hp
      refine ⟨?_, ?_, ?_, ?_⟩
      · simpa using hb1
      · simpa using hb2
      · rw [← hp]
      · rw [← hp]

theorem processEntry_eval (allE : List (JVal × RawEntry)) (srMap : List (JVal × JVal))
    (nowPark : Int) (k : JVal) (e : RawEntry)
    (ht : typeIsAttraction e.typeF = true)
    (hsk : (srMap.map Prod.fst).contains k = false) :
    processEntry allE srMap nowPark (k, e) = some
      { id := jstrD (special_merge k),
        name := e.nameF.getD "Unknown",
        status := _map_state e.stateF,
        wait_time := if _map_state e.stateF = .open' then waitTimeOf e.waitingTimeF
                     else none,
        single_rider :=
          match srMap.find? (fun p => p.2 == k) with
          | some (srId, _) =>
            if srId.truthy then
              match allE.lookup srId with
              | some sr =>
                some { available := true,
                       status := some (if _map_state sr.stateF = .open' then "open"
                                       else "closed"),
                       wait_time := if _map_state sr.stateF = .open'
                                    then waitTimeOf sr.waitingTimeF else none }
              | none => none
            else none
          | none => none,
        virtual_queue := normalizeVQ e.virtualQueue nowPark } := by
  unfold processEntry
  rw [if_neg (by simp [ht]), if_neg (by rw [hsk]; decide)]

theorem jstr_truthy_of_ne (s : String) (h : s ≠ "") :
    (JVal.jstr s).truthy = true := by
  cases s with
  | mk l =>
    cases l with
    | nil => exact absurd rfl h
    | cons c cs => rfl

/-- C4 counterexample: a secondary-queue entry (`foosr`) whose stripped
remainder (`foo`) matches no existing identifier is kept as a standalone
attraction, not dropped; and with two secondary entries for one parent
(`dfsr` and `dfsinglerider`), both are removed but only the first is
attached — the second's wait of 4 minutes appears nowhere in the
output. -/
theorem c4_counterexample :
    fetch_wait_times
        (.ok ⟨[{ idF := some (.jstr "foosr"), typeF := some "Attraction",
                 stateF := some "open", waitingTimeF := some (.jint 5) }]⟩) 0
      = .ok [{ id := "foosr", name := "Unknown", status := .open', wait_time := some 5,
               single_rider := none, virtual_queue := none }] ∧
    fetch_wait_times
        (.ok ⟨[{ idF := some (.jstr "df"), typeF := some "Attraction",
                 stateF := some "open", waitingTimeF := some (.jint 10) },
               { idF := some (.jstr "dfsr"), typeF := some "Attraction",
                 stateF := some "open", waitingTimeF := some (.jint 3) },
               { idF := some (.jstr "dfsinglerider"), typeF := some "Attraction",
                 stateF := some "open", waitingTimeF := some (.jint 4) }]⟩) 0
      = .ok [{ id := "df", name := "Unknown", status := .open', wait_time := some 10,
               single_rider := some { available := true, status := some "open",
                                      wait_time := some 3 },
               virtual_queue := none }] :=
  ⟨rfl, rfl⟩

/-- C4 (amended): under well-formed payload identifiers (strings,
pairwise distinct), every raw entry matching the secondary-queue naming
convention whose both-marker-stripped remainder case-insensitively
matches an existing identifier is removed from the returned attraction
list; a parent attraction that is not itself a matched secondary
carries, as its `SingleRiderInfo`, the normalized status and wait of the
*first* such secondary entry resolving to it (later ones are removed but
not attached); and a secondary-like entry of attraction type whose
remainder matches no identifier remains a standalone attraction instead
of being dropped.  In particular, `dreamflight`/`dreamflightsr`
merge into one `dreamflight` entity with single-rider wait 3. -/
theorem c4_single_rider_merge :
    (∀ (data : WisPayload) (nowPark : Int) (out : List AttractionLive),
      (∀ e ∈ data.attractionInfo, ∃ s, e.idF = some (.jstr s)) →
      (entryIds data).Nodup →
      fetch_wait_times (.ok data) nowPark = .ok out →
      ((∀ (e : RawEntry) (s : String), e ∈ data.attractionInfo →
          e.idF = some (.jstr s) → srLike (pyLower s) = true →
          (∃ m, findParentPure (entryIds data) (srStrip (pyLower s)) = some m) →
          ∀ a ∈ out, a.id ≠ s) ∧
       (∀ (p : RawEntry) (sp cs : String) (ec : RawEntry),
          p ∈ data.attractionInfo → p.idF = some (.jstr sp) →
          typeIsAttraction p.typeF = true →
          srEntry (entryIds data) (.jstr sp) = none →
          (srMapOf data).find? (fun q => q.2 == JVal.jstr sp)
            = some (JVal.jstr cs, JVal.jstr sp) →
          cs ≠ "" →
          (entriesKeyed data).lookup (JVal.jstr cs) = some ec →
          ∃ a ∈ out, a.id = jstrD (special_merge (JVal.jstr sp)) ∧
            a.status = _map_state p.stateF ∧
            a.single_rider = some
              { available := true,
                status := some (if _map_state ec.stateF = .open' then "open"
                                else "closed"),
                wait_time := if _map_state ec.stateF = .open'
                             then waitTimeOf ec.waitingTimeF else none }) ∧
       (∀ (e : RawEntry) (s : String), e ∈ data.attractionInfo →
          e.idF = some (.jstr s) → typeIsAttraction e.typeF = true →
          srLike (pyLower s) = true →
          findParentPure (entryIds data) (srStrip (pyLower s)) = none →
          ∃ a ∈ out, a.id = s))) ∧
    fetch_wait_times
        (.ok ⟨[{ idF := some (.jstr "dreamflight"), typeF := some "Attraction",
                 stateF := some "open", waitingTimeF := some (.jint 12) },
               { idF := some (.jstr "dreamflightsr"), typeF := some "Attraction",
                 stateF := some "open", waitingTimeF := some (.jint 3) }]⟩) 0
      = .ok [{ id := "dreamflight", name := "Unknown", status := .open',
               wait_time := some 12,
               single_rider := some { available := true, status := some "open",
                                      wait_time := some 3 },
               virtual_queue := none }] := by
  refine ⟨?_, rfl⟩
  intro data nowPark out hids hnd hout
  have hfeq := fetch_wait_times_eq data nowPark hids hnd
  have houteq : out = (entriesKeyed data).filterMap
      (processEntry (entriesKeyed data) (srMapOf data) nowPark) :=
    Except.ok.inj (hout.symm.trans hfeq)
  subst houteq
  refine ⟨?_, ?_, ?_⟩
  · -- removal
    intro e s he hid hsr hfp a ha heq
    obtain ⟨kv, hkv, hp⟩ := List.mem_filterMap.mp ha
    obtain ⟨htype, hskip, haid, hastat⟩ := processEntry_some _ _ _ _ _ hp
    obtain ⟨e', he', hkveq⟩ := List.mem_map.mp hkv
    obtain ⟨s', hs'⟩ := hids e' he'
    have hk1 : kv.1 = JVal.jstr s' := by rw [← hkveq]; simp [entryKey, hs']
    have hk0mem : JVal.jstr s ∈ entryIds data :=
      List.mem_map.mpr ⟨e, he, by simp [entryKey, hid]⟩
    obtain ⟨m, hm⟩ := hfp
    have hse : srEntry (entryIds data) (JVal.jstr s) = some (JVal.jstr s, m) := by
      simp [srEntry, hsr, hm]
    have hk0sr : JVal.jstr s ∈ (srMapOf data).map Prod.fst :=
      (mem_srMapOf_fst data _).mpr ⟨hk0mem, by rw [hse]; exact Option.noConfusion⟩
    by_cases hdv : (kv.1 == JVal.jstr "droomvluchtstandby") = true
    · have hsm : special_merge kv.1 = JVal.jstr "droomvlucht" := by
        simp [special_merge, hdv]
      have hsdv : s = "droomvlucht" := by rw [← heq, haid, hsm]; rfl
      subst hsdv
      exact absurd hsr (by decide)
    · have hsm : special_merge kv.1 = kv.1 := by
        unfold special_merge
        rw [if_neg hdv]
      have hss' : s' = s := by rw [← heq, haid, hsm, hk1]; rfl
      have hkv1 : kv.1 = JVal.jstr s := by rw [hk1, hss']
      rw [hkv1] at hskip
      have hcontains : ((srMapOf data).map Prod.fst).contains (JVal.jstr s) = true :=
        List.elem_eq_true_of_mem hk0sr
      exact absurd hcontains (by rw [hskip]; decide)
  · -- attachment of the first secondary
    intro p sp cs ec hpmem hpid htype hnotsec hfind hcs hlook
    have hk0 : entryKey p = JVal.jstr sp := by simp [entryKey, hpid]
    have hkvmem : (JVal.jstr sp, p) ∈ entriesKeyed data :=
      List.mem_map.mpr ⟨p, hpmem, by rw [hk0]⟩
    have hskip : ((srMapOf data).map Prod.fst).contains (JVal.jstr sp) = false := by
      cases hc : ((srMapOf data).map Prod.fst).contains (JVal.jstr sp) with
      | false => rfl
      | true =>
        exfalso
        have hmem := List.mem_of_elem_eq_true hc
        obtain ⟨_, hne⟩ := (mem_srMapOf_fst data _).mp hmem
        exact hne hnotsec
    have heval : processEntry (entriesKeyed data) (srMapOf data) nowPark
        (JVal.jstr sp, p) = some
          { id := jstrD (special_merge (JVal.jstr sp)),
            name := p.nameF.getD "Unknown",
            status := _map_state p.stateF,
            wait_time := if _map_state p.stateF = .open' then waitTimeOf p.waitingTimeF
                         else none,
            single_rider := some
              { available := true,
                status := some (if _map_state ec.stateF = .open' then "open"
                                else "closed"),
                wait_time := if _map_state ec.stateF = .open'
                             then waitTimeOf ec.waitingTimeF else none },
            virtual_queue := normalizeVQ p.virtualQueue nowPark } := by
      rw [processEntry_eval (entriesKeyed data) (srMapOf data) nowPark
        (JVal.jstr sp) p htype hskip]
      simp [hfind, jstr_truthy_of_ne cs hcs, hlook]
    refine ⟨_, List.mem_filterMap.mpr ⟨(JVal.jstr sp, p), hkvmem, heval⟩, rfl, rfl, rfl⟩
  · -- unmatched secondaries stay standalone
    intro e s he hid htype hsr hfp
    have hk0 : entryKey e = JVal.jstr s := by simp [entryKey, hid]
    have hkvmem : (JVal.jstr s, e) ∈ entriesKeyed data :=
      List.mem_map.mpr ⟨e, he, by rw [hk0]⟩
    have hse : srEntry (entryIds data) (JVal.jstr s) = none := by
      simp [srEntry, hsr, hfp]
    have hskip : ((srMapOf data).map Prod.fst).contains (JVal.jstr s) = false := by
      cases hc : ((srMapOf data).map Prod.fst).contains (JVal.jstr s) with
      | false => rfl
      | true =>
        exfalso
        have hmem := List.mem_of_elem_eq_true hc
        obtain ⟨_, hne⟩ := (mem_srMapOf_fst data _).mp hmem
        exact hne hse
    have heval := processEntry_eval (entriesKeyed data) (srMapOf data) nowPark
      (JVal.jstr s) e htype hskip
    have hndv : s ≠ "droomvluchtstandby" := by
      intro hdv
      subst hdv
      exact absurd hsr (by decide)
    have hsm : special_merge (JVal.jstr s) = JVal.jstr s := by
      unfold special_merge
      rw [if_neg (by simpa using hndv)]
    refine ⟨_, List.mem_filterMap.mpr ⟨(JVal.jstr s, e), hkvmem, heval⟩, ?_⟩
    show jstrD (special_merge (JVal.jstr s)) = s
    rw [hsm]
    rfl

/-- Witness for C4: on the dreamflight payload the amended merge theorem
yields the single merged entity carrying the secondary's wait of 3. -/
theorem c4_single_rider_merge_witness :
    ∃ a ∈ [{ id := "dreamflight", name := "Unknown", status := AttractionStatus.open',
             wait_time := some 12,
             single_rider := some { available := true, status := some "open",
                                    wait_time := some 3 },
             virtual_queue := none : AttractionLive }],
      a.id = jstrD (special_merge (JVal.jstr "dreamflight")) ∧
      a.status = _map_state (some "open") ∧
      a.single_rider = some
        { available := true,
          status := some (if _map_state (some "open") = .open' then "open" else "closed"),
          wait_time := if _map_state (some "open") = .open'
                       then waitTimeOf (some (.jint 3)) else none } := by
  have happ := (c4_single_rider_merge.1
    ⟨[{ idF := some (.jstr "dreamflight"), typeF := some "Attraction",
        stateF := some "open", waitingTimeF := some (.jint 12) },
      { idF := some (.jstr "dreamflightsr"), typeF := some "Attraction",
        stateF := some "open", waitingTimeF := some (.jint 3) }]⟩
    0
    [{ id := "dreamflight", name := "Unknown", status := .open', wait_time := some 12,
       single_rider := some { available := true, status := some "open",
                              wait_time := some 3 },
       virtual_queue := none }]
    (by
      intro e he
      simp only [List.mem_cons, List.not_mem_nil, or_false] at he
      rcases he with rfl | rfl
      · exact ⟨"dreamflight", rfl⟩
      · exact ⟨"dreamflightsr", rfl⟩)
    (by decide)
    rfl).2.1
    { idF := some (.jstr "dreamflight"), typeF := some "Attraction",
      stateF := some "open", waitingTimeF := some (.jint 12) }
    "dreamflight" "dreamflightsr"
    { idF := some (.jstr "dreamflightsr"), typeF := some "Attraction",
      stateF := some "open", waitingTimeF := some (.jint 3) }
    (by simp) rfl rfl rfl rfl (by decide) rfl
  exact happ
